import Mathlib

/-!
Verification of the workflow-controller operator core
(`workflow/controller/operator.go`): a shallow embedding of the node-status
data model and of the operator's pure decision logic, with theorems checking
the specification's claims against it.

Conventions of the embedding:
* Time is `Int`, the number of nanoseconds since the Unix epoch; `0` plays the
  role of Go's zero `time.Time` (`IsZero`).
* Durations are `Int` nanoseconds.
* The node map `wf.Status.Nodes` is an association list with Go-map
  assignment semantics (`Nodes.set`).
* Functions that panic in Go return `Option`/`Except` here, with `none`/
  `.error` on the panic path.
* Members of the `wfv1` API package (node phases, `Fulfilled`, shutdown
  strategies, `NodeID` hashing) are not part of the source subset; they are
  modelled from the spec where marked.
-/

namespace ArgoOperator

/-- Node phases of the `wfv1` package. Modelled from the spec's data model:
`phase` ranges over Pending, Running, Succeeded, Failed, Error, Skipped,
Omitted. -/
inductive NodePhase where
  | pending
  | running
  | succeeded
  | skipped
  | failed
  | error
  | omitted
  deriving DecidableEq, Repr

/-- Modelled from the spec: a phase is terminal (fulfilled) exactly when it is
Succeeded, Failed, Error, Skipped or Omitted. -/
def NodePhase.fulfilled : NodePhase → Bool
  | .succeeded => true
  | .failed => true
  | .error => true
  | .skipped => true
  | .omitted => true
  | .pending => false
  | .running => false

/-- Modelled from the spec: FailedOrError is phase Failed or Error. -/
def NodePhase.failedOrError : NodePhase → Bool
  | .failed => true
  | .error => true
  | _ => false

/-- Workflow phases of the `wfv1` package (modelled from the spec's data
model). -/
inductive WorkflowPhase where
  | unknown
  | pending
  | running
  | succeeded
  | failed
  | error
  deriving DecidableEq, Repr

/-- Node types of the `wfv1` package (modelled from the spec's data model). -/
inductive NodeType where
  | pod
  | container
  | steps
  | stepGroup
  | dag
  | taskGroup
  | retry
  | skipped
  | suspendT
  deriving DecidableEq, Repr

/-- Outputs payload carried by nodes and cache entries; the operator's logic
treats it as opaque data, so a minimal faithful shape suffices. -/
structure Outputs where
  exitCode : Option String
  parameters : List (String × String)
  deriving DecidableEq, Repr

/-- MemoizationStatus of the `wfv1` package: hit flag, cache key, cache
name. -/
structure MemoizationStatus where
  hit : Bool
  key : String
  cacheName : String
  deriving DecidableEq, Repr

/-- The fields of `wfv1.NodeStatus` the operator's decision logic reads or
writes (identity, type, phase, message, timing, graph edges, payload). -/
structure NodeStatus where
  id : String
  name : String
  typ : NodeType
  phase : NodePhase
  message : String
  startedAt : Int
  finishedAt : Int
  children : List String
  outputs : Option Outputs
  hostNodeName : String
  daemoned : Option Bool
  memoizationStatus : Option MemoizationStatus
  deriving DecidableEq, Repr

/-- Modelled from the spec: `NodeStatus.Fulfilled()` holds when the phase is
terminal. -/
def NodeStatus.fulfilled (n : NodeStatus) : Bool := n.phase.fulfilled

/-- `NodeStatus.FailedOrError()`. -/
def NodeStatus.failedOrError (n : NodeStatus) : Bool := n.phase.failedOrError

/-- `NodeStatus.Pending()`. -/
def NodeStatus.pending (n : NodeStatus) : Bool := n.phase = NodePhase.pending

/-- Modelled from the spec: `NodeID(name)` is a deterministic hash of the node
name, globally unique within the workflow ("every nodeID is hash(nodeName) and
globally unique"), so the embedding takes the identity injection on names. -/
def nodeID (name : String) : String := name

/-- The workflow's node map `wf.Status.Nodes`, as an association list keyed by
node ID. -/
abbrev Nodes := List (String × NodeStatus)

/-- Go map read `nodes[id]`. -/
def Nodes.get : Nodes → String → Option NodeStatus
  | [], _ => none
  | p :: rest, id => if p.1 = id then some p.2 else Nodes.get rest id

/-- Go map assignment `nodes[id] = v`: replaces the entry when the key exists,
appends it otherwise. -/
def Nodes.set : Nodes → String → NodeStatus → Nodes
  | [], id, v => [(id, v)]
  | p :: rest, id, v => if p.1 = id then (id, v) :: rest else p :: Nodes.set rest id v

/-- `wf.GetNodeByName`: look the node up under the ID derived from its
name. -/
def getNodeByName (ns : Nodes) (name : String) : Option NodeStatus :=
  Nodes.get ns (nodeID name)

/-- Result of `markNodePhase`: the new node map and the node just written. -/
structure MarkedNode where
  nodes : Nodes
  node : NodeStatus
  deriving DecidableEq, Repr

/-- The node mutations of `markNodePhase` (operator.go lines 2059-2079) on
the fetched node: write the phase when it differs (the Go code logs "node is
already fulfilled" when the old phase was terminal, but still performs the
transition), write the message when one was passed and differs, and stamp
`finishedAt` once the node is fulfilled. -/
def applyMarkPhase (node0 : NodeStatus) (now : Int) (phase : NodePhase)
    (message : Option String) : NodeStatus :=
  let node1 := if node0.phase = phase then node0 else { node0 with phase := phase }
  let node2 := match message with
    | none => node1
    | some m => if m = node1.message then node1 else { node1 with message := m }
  if node2.fulfilled = true ∧ node2.finishedAt = 0 then
    { node2 with finishedAt := now }
  else node2

/-- operator.go `markNodePhase` (lines 2053-2085). `none` models the panic on
an uninitialized node. Event emission (`onNodeComplete`) is an external side
effect and carries no state. -/
def markNodePhase (ns : Nodes) (now : Int) (nodeName : String)
    (phase : NodePhase) (message : Option String) : Option MarkedNode :=
  match getNodeByName ns nodeName with
  | none => none
  | some node0 =>
    let node3 := applyMarkPhase node0 now phase message
    some { nodes := Nodes.set ns node3.id node3, node := node3 }

/-- operator.go `addChildNode` (lines 2639-2657). `none` models the panic on
an uninitialized parent. -/
def addChildNode (ns : Nodes) (parent child : String) : Option Nodes :=
  let parentID := nodeID parent
  let childID := nodeID child
  match Nodes.get ns parentID with
  | none => none
  | some node =>
    if childID ∈ node.children then some ns
    else some (Nodes.set ns parentID { node with children := node.children ++ [childID] })

/-- The `workflowStatus` map literal of `operate` (operator.go lines
344-352). -/
def workflowStatusOf : NodePhase → WorkflowPhase
  | .pending => .pending
  | .running => .running
  | .succeeded => .succeeded
  | .skipped => .succeeded
  | .failed => .failed
  | .error => .error
  | .omitted => .succeeded

/-- The message `operate` uses for the otherwise-unreachable default branch of
its final switch (operator.go line 424); the Go text also interpolates the
workflow name. -/
def unexpectedNodePhaseMessage : String := "Unexpected node phase"

/-- Modelled from the spec: a shutdown strategy is the string None (empty),
Stop or Terminate; `Enabled()` holds when it is non-empty. The message it
contributes is the Go format "Stopped with strategy '%s'". -/
def shutdownStrategyMessage (shutdown : String) : String :=
  "Stopped with strategy " ++ "'" ++ shutdown ++ "'"

/-- Outcome written into the workflow status by the `markWorkflowPhase`
family. -/
structure WfOutcome where
  phase : WorkflowPhase
  message : String
  deriving DecidableEq, Repr

/-- The tail of `operate` (operator.go lines 393-426) once both the entry node
and (when present) the onExit node are fulfilled: workflowMessage selection
and the final phase-inference switch. `entry` is the entry-template node,
`onExitNode` the onExit-handler node when an onExit handler ran. -/
def operateFinishSwitch (entry : NodeStatus) (onExitNode : Option NodeStatus)
    (shutdown : String) : WfOutcome :=
  let workflowMessage :=
    if entry.failedOrError = true ∧ shutdown ≠ "" then shutdownStrategyMessage shutdown
    else entry.message
  match workflowStatusOf entry.phase with
  | .succeeded =>
    match onExitNode with
    | some oe =>
      if oe.failedOrError then
        match oe.phase with
        | .failed => { phase := .failed, message := oe.message }
        | _ => { phase := .error, message := oe.message }
      else { phase := .succeeded, message := "" }
    | none => { phase := .succeeded, message := "" }
  | .failed => { phase := .failed, message := workflowMessage }
  | .error => { phase := .error, message := workflowMessage }
  | _ => { phase := .error, message := unexpectedNodePhaseMessage }

/-- The phase-inference fragment of `operate` (operator.go lines 339-426):
returns `none` where `operate` returns without setting a final workflow phase
(entry node absent from the gate or not fulfilled, or an onExit handler ran
whose node is not yet fulfilled). -/
def operatePhaseInference (entry : NodeStatus) (onExitNode : Option NodeStatus)
    (shutdown : String) : Option WfOutcome :=
  if entry.fulfilled = false then none
  else
    match onExitNode with
    | some oe =>
      if oe.fulfilled = false then none
      else some (operateFinishSwitch entry (some oe) shutdown)
    | none => some (operateFinishSwitch entry none shutdown)

/-- The workflow phase exactly as claim C2 words it: the mapping
Pending to Pending, Running to Running, Succeeded or Skipped or Omitted to
Succeeded, Failed to Failed, Error to Error applied to the entry node's
phase, except that when the entry node's class is Succeeded and the onExit
node failed or errored, the workflow takes the onExit node's failure class
(Failed for NodeFailed, Error otherwise). -/
def claimedWorkflowPhase (entry : NodeStatus) (onExitNode : Option NodeStatus) :
    WorkflowPhase :=
  match onExitNode with
  | some oe =>
    if workflowStatusOf entry.phase = .succeeded ∧ oe.failedOrError = true then
      if oe.phase = .failed then .failed else .error
    else workflowStatusOf entry.phase
  | none => workflowStatusOf entry.phase

/-- The view of a freshly fetched workflow that `reapplyUpdate` inspects:
whether `currWf.Status.Fulfilled()` holds, and the phase of each of its
nodes. -/
structure FetchedWf where
  fulfilled : Bool
  nodes : List (String × NodePhase)
  deriving DecidableEq, Repr

/-- One iteration's interaction with the API inside `reapplyUpdate`: the
result of the `Get` call, and whether the `Update` call would succeed, with
the error text it returns otherwise. -/
structure ApiAttempt where
  fetched : Except String FetchedWf
  updateOk : Bool
  updateErrMsg : String
  deriving Repr

/-- The completed-node regression check of `reapplyUpdate` (operator.go lines
665-670): an ID of a node of the update whose counterpart in the fetched
workflow is fulfilled with a different phase, if any. -/
def completedNodeConflict (wfNodes : List (String × NodePhase))
    (currNodes : List (String × NodePhase)) : Option String :=
  (wfNodes.find? fun p =>
    match currNodes.lookup p.1 with
    | some currPhase => currPhase.fulfilled && decide (p.2 ≠ currPhase)
    | none => false).map Prod.fst

/-- What one iteration of the `reapplyUpdate` loop decides before the
attempt-counter bookkeeping: return a result, or go around again after a
failed `Update`. -/
inductive ReapplyStepOutcome where
  | done (r : Except String Unit)
  | retryLoop (errMsg : String)
  deriving Repr

/-- One iteration of the loop body of `reapplyUpdate` (operator.go lines
650-693): a failed `Get` returns its error, a fulfilled fetched workflow and a
completed-node regression return the guard errors, a successful `Update`
returns the workflow, and a failed `Update` goes around the loop. -/
def reapplyStep (wfNodes : List (String × NodePhase)) (a : ApiAttempt) :
    ReapplyStepOutcome :=
  match a.fetched with
  | .error e => .done (.error e)
  | .ok currWf =>
    if currWf.fulfilled then
      .done (.error "must never update completed workflows")
    else
      match completedNodeConflict wfNodes currWf.nodes with
      | some id => .done (.error ("must never update completed node " ++ id))
      | none => if a.updateOk then .done (.ok ()) else .retryLoop a.updateErrMsg

/-- The fetch-patch-write loop of `reapplyUpdate` (operator.go lines 648-699):
`attempt++` after each failed `Update`, giving up when `attempt > 5`.
`wfNodes` is the node-phase view of the update being applied (`woc.wf`),
`api attempt` the environment's answer for a given attempt number. The fuel
argument tracks the remaining loop iterations; started at 4 with attempt 1 it
never runs out before the `attempt > 5` exit that the code takes, and the
fuel-exhausted fallback mirrors that exit. The patch construction itself
(JSON marshalling) always succeeds on well-formed data and is not
modelled. -/
def reapplyLoop (wfNodes : List (String × NodePhase)) (api : Nat → ApiAttempt) :
    Nat → Nat → Except String Unit
  | attempt, fuel =>
    match reapplyStep wfNodes (api attempt) with
    | .done r => r
    | .retryLoop errMsg =>
      if attempt + 1 > 5 then .error errMsg
      else
        match fuel with
        | 0 => .error errMsg
        | fuel' + 1 => reapplyLoop wfNodes api (attempt + 1) fuel'

/-- operator.go `reapplyUpdate` (lines 624-700), from the first `Get` on:
attempt counts from 1. -/
def reapplyUpdate (wfNodes : List (String × NodePhase)) (api : Nat → ApiAttempt) :
    Except String Unit :=
  reapplyLoop wfNodes api 1 4

/-- A successful fetch that the regression checks let through: the fetched
workflow is not fulfilled and no completed node would be regressed. -/
def goodAttempt (wfNodes : List (String × NodePhase)) (a : ApiAttempt) : Prop :=
  ∃ currWf, a.fetched = .ok currWf ∧ currWf.fulfilled = false ∧
    completedNodeConflict wfNodes currWf.nodes = none

instance (wfNodes : List (String × NodePhase)) (a : ApiAttempt) :
    Decidable (goodAttempt wfNodes a) := by
  unfold goodAttempt
  match h : a.fetched with
  | .error e => exact .isFalse (by simp [h])
  | .ok currWf =>
    refine decidable_of_iff (currWf.fulfilled = false ∧
      completedNodeConflict wfNodes currWf.nodes = none) ?_
    constructor
    · exact fun hc => ⟨currWf, rfl, hc.1, hc.2⟩
    · rintro ⟨c, hc, h1, h2⟩
      cases hc
      exact ⟨h1, h2⟩

/-- Decimal digit-list value with accumulator; `none` on a non-digit. -/
def parseDigitsAux : List Char → Nat → Option Nat
  | [], acc => some acc
  | c :: rest, acc =>
    if c.isDigit then parseDigitsAux rest (acc * 10 + (c.toNat - 48)) else none

/-- The value of a non-empty all-digit character list. -/
def parseDigits : List Char → Option Nat
  | [] => none
  | cs => parseDigitsAux cs 0

/-- Go `strconv.Atoi`: an optionally signed decimal integer. -/
def atoiInt (s : String) : Option Int :=
  match s.data with
  | [] => none
  | c :: rest =>
    if c = '-' then (parseDigits rest).map (fun n => -(n : Int))
    else if c = '+' then (parseDigits rest).map (fun n => (n : Int))
    else (parseDigits (c :: rest)).map (fun n => (n : Int))

/-- The multiplier, in nanoseconds, of a Go duration unit. -/
def durationUnitMult : List Char → Option Int
  | ['n', 's'] => some 1
  | ['u', 's'] => some 1000
  | ['m', 's'] => some 1000000
  | ['s'] => some 1000000000
  | ['m'] => some 60000000000
  | ['h'] => some 3600000000000
  | _ => none

/-- Go `time.ParseDuration`, embedded for the single "<integer><unit>" form
(units ns, us, ms, s, m, h, with an optional leading minus; bare "0" parses to
zero). Multi-component and fractional forms of the Go parser are not needed by
the operator's callers and are rejected here. -/
def timeParseDuration (s : String) : Option Int :=
  match s.data with
  | ['0'] => some 0
  | cs =>
    let neg := match cs with
      | '-' :: _ => true
      | _ => false
    let body := match cs with
      | '-' :: rest => rest
      | _ => cs
    let digits := body.takeWhile Char.isDigit
    let unit := body.dropWhile Char.isDigit
    match parseDigits digits, durationUnitMult unit with
    | some n, some mult =>
      some (if neg then -((n : Int) * mult) else (n : Int) * mult)
    | _, _ => none

/-- operator.go `parseStringToDuration` (lines 2779-2790): a bare integer is
seconds, otherwise Go duration syntax; `none` models the parse error. -/
def parseStringToDuration (durationString : String) : Option Int :=
  match atoiInt durationString with
  | some val => some (val * 1000000000)
  | none => timeParseDuration durationString

/-- The argo humanize.Duration rendering used in retry back-off messages; the
library's exact formatting is external, embedded as the decimal nanosecond
count. -/
def humanizeDuration (d : Int) : String := toString d

/-- operator.go `getChildNodeIndex` (lines 1459-1479): child at `index`,
negative indices counting from the end; `none` when there are no children and
also on the code's panic paths (index out of bounds, child missing from the
map). -/
def getChildNodeIndex (node : NodeStatus) (ns : Nodes) (index : Int) :
    Option NodeStatus :=
  if node.children.length = 0 then none
  else
    let nodeIndex : Int :=
      if index < 0 then (node.children.length : Int) + index else index
    if nodeIndex < 0 then none
    else
      match node.children.get? nodeIndex.toNat with
      | none => none
      | some childName => Nodes.get ns childName

/-- `wfv1.RetryStrategy.Backoff`; duration and maxDuration are the raw strings
of the manifest, factor the value behind the `intstr.Int32` conversion
(`none` when unset). -/
structure RetryBackoff where
  duration : String
  factor : Option Int
  maxDuration : String
  deriving DecidableEq, Repr

/-- `wfv1.RetryStrategy`; the policy is the raw string ("Always", "OnFailure",
"OnError", "OnTransientError" or empty), limit the value behind
`intstr.Int32`. -/
structure RetryStrategy where
  limit : Option Int
  retryPolicy : String
  backoff : Option RetryBackoff
  deriving DecidableEq, Repr

/-- Modelled from the spec: `NodeStatus.CanRetry()` holds for nodes that
failed or errored (the spec's retry table sends exactly those to the limit
check). -/
def NodeStatus.canRetry (n : NodeStatus) : Bool := n.failedOrError

/-- The full result of `processNodeRetries`: the node map after its
`markNodePhase` calls, the returned node (`none` on the error return), the
continue-execution flag, the error text if any, the `requeueAfter` duration
when a back-off requeue was scheduled, and the `opts.executionDeadline`
written by the back-off branch (`none` standing for Go's zero time). -/
structure RetryResult where
  nodes : Nodes
  node : Option NodeStatus
  continueExec : Bool
  err : Option String
  requeueAfter : Option Int
  executionDeadline : Option Int
  deriving DecidableEq, Repr

/-- An error return `(nil, false, err)` of `processNodeRetries`. -/
def retryErr (ns : Nodes) (msg : String) : RetryResult :=
  { nodes := ns, node := none, continueExec := false, err := some msg,
    requeueAfter := none, executionDeadline := none }

/-- A `(markNodePhase ..., continue, nil)` return of `processNodeRetries`;
the `none` case of `markNodePhase` (Go panic, unreachable for a node that is
in the map) is folded into the error return. -/
def retryMark (ns : Nodes) (now : Int) (nodeName : String) (phase : NodePhase)
    (message : Option String) (continueExec : Bool) (requeueAfter : Option Int)
    (executionDeadline : Option Int) : RetryResult :=
  match markNodePhase ns now nodeName phase message with
  | none => retryErr ns "node uninitialized"
  | some m =>
    { nodes := m.nodes, node := some m.node, continueExec := continueExec,
      err := none, requeueAfter := requeueAfter,
      executionDeadline := executionDeadline }

/-- The retry-policy classification of `processNodeRetries` (operator.go lines
803-822): `(retryOnFailed, retryOnError)`, or `none` for an invalid
policy. -/
def retryPolicyFlags (policy : String) (lastChild : NodeStatus)
    (isTransientErr : String → Bool) : Option (Bool × Bool)
  :=
  if policy = "Always" then some (true, true)
  else if policy = "OnError" then some (false, true)
  else if policy = "OnTransientError" then
    if (lastChild.phase = NodePhase.failed ∨ lastChild.phase = NodePhase.error) ∧
        isTransientErr lastChild.message = true then some (true, true)
    else some (false, false)
  else if policy = "OnFailure" ∨ policy = "" then some (true, false)
  else none

/-- The tail of `processNodeRetries` after the back-off block (operator.go
lines 803-844): policy classification, the no-retry and cannot-retry marks,
the retry-limit check, and the spawn-another-child fallthrough. -/
def processRetriesPolicy (ns : Nodes) (now : Int) (node : NodeStatus)
    (lastChild : NodeStatus) (rs : RetryStrategy)
    (isTransientErr : String → Bool) (executionDeadline : Option Int) :
    RetryResult :=
  match retryPolicyFlags rs.retryPolicy lastChild isTransientErr with
  | none => retryErr ns (rs.retryPolicy ++ " is not a valid RetryPolicy")
  | some (retryOnFailed, retryOnError) =>
    if (lastChild.phase = NodePhase.failed ∧ retryOnFailed = false) ∨
        (lastChild.phase = NodePhase.error ∧ retryOnError = false) then
      retryMark ns now node.name lastChild.phase (some lastChild.message) true
        none executionDeadline
    else if lastChild.canRetry = false then
      retryMark ns now node.name lastChild.phase (some lastChild.message) true
        none executionDeadline
    else
      match rs.limit with
      | some limit =>
        if (node.children.length : Int) > limit then
          retryMark ns now node.name lastChild.phase (some "No more retries left")
            true none executionDeadline
        else
          { nodes := ns, node := some node, continueExec := true, err := none,
            requeueAfter := none, executionDeadline := executionDeadline }
      | none =>
        { nodes := ns, node := some node, continueExec := true, err := none,
          requeueAfter := none, executionDeadline := executionDeadline }

/-- The `timeToWait` computation of `processNodeRetries` (operator.go lines
772-781): the parsed base duration, multiplied by `factor^(children − 1)` when
a positive factor is set (Go computes the power through `math.Pow` on the
int32 factor, exact for in-range values). -/
def backoffTimeToWait (bo : RetryBackoff) (baseDuration : Int)
    (numChildren : Nat) : Int :=
  match bo.factor with
  | some factor =>
    if factor > 0 then baseDuration * factor ^ (numChildren - 1)
    else baseDuration
  | none => baseDuration

/-- The back-off computation of `processNodeRetries` (operator.go lines
763-800), entered once the max-duration deadline has not been exceeded.
`maxDurationDeadline` is `none` for Go's zero time sentinel. -/
def processRetriesBackoffWait (ns : Nodes) (now : Int) (node : NodeStatus)
    (lastChild : NodeStatus) (rs : RetryStrategy) (bo : RetryBackoff)
    (isTransientErr : String → Bool) (maxDurationDeadline : Option Int) :
    RetryResult :=
  if bo.duration = "" then retryErr ns "no base duration specified for retryStrategy"
  else
    match parseStringToDuration bo.duration with
    | none => retryErr ns ("unable to parse " ++ bo.duration ++ " as a duration")
    | some baseDuration =>
      let timeToWait := backoffTimeToWait bo baseDuration node.children.length
      let waitingDeadline := lastChild.finishedAt + timeToWait
      match maxDurationDeadline with
      | some mdd =>
        if waitingDeadline > mdd then
          retryMark ns now node.name lastChild.phase
            (some "Backoff would exceed max duration limit") true none none
        else if now < waitingDeadline then
          retryMark ns now node.name node.phase
            (some ("Backoff for " ++ humanizeDuration timeToWait)) false
            (some timeToWait) none
        else
          match markNodePhase ns now node.name node.phase (some "") with
          | none => retryErr ns "node uninitialized"
          | some m =>
            processRetriesPolicy m.nodes now m.node lastChild rs isTransientErr
              (some mdd)
      | none =>
        if now < waitingDeadline then
          retryMark ns now node.name node.phase
            (some ("Backoff for " ++ humanizeDuration timeToWait)) false
            (some timeToWait) none
        else
          match markNodePhase ns now node.name node.phase (some "") with
          | none => retryErr ns "node uninitialized"
          | some m =>
            processRetriesPolicy m.nodes now m.node lastChild rs isTransientErr
              none

/-- The workflow-deadline test `time.Now().UTC().After(*woc.workflowDeadline)`
guarded by the nil check (operator.go line 735). -/
def workflowDeadlinePassed (now : Int) (workflowDeadline : Option Int) : Bool :=
  match workflowDeadline with
  | some wd => decide (now > wd)
  | none => false

/-- operator.go `processNodeRetries` (lines 713-845) as a pure function over
the node map. `shutdown` is the workflow's shutdown strategy string (empty
when none), `workflowDeadline` the optional absolute deadline, and
`isTransientErr` the external transient-error classifier applied to the last
child's message. -/
def processNodeRetries (ns : Nodes) (now : Int) (node : NodeStatus)
    (rs : RetryStrategy) (shutdown : String) (workflowDeadline : Option Int)
    (isTransientErr : String → Bool) : RetryResult :=
  if node.fulfilled then
    { nodes := ns, node := some node, continueExec := true, err := none,
      requeueAfter := none, executionDeadline := none }
  else
    match getChildNodeIndex node ns (-1) with
    | none =>
      { nodes := ns, node := some node, continueExec := true, err := none,
        requeueAfter := none, executionDeadline := none }
    | some lastChild =>
      if lastChild.fulfilled = false then
        { nodes := ns, node := some node, continueExec := true, err := none,
          requeueAfter := none, executionDeadline := none }
      else if lastChild.failedOrError = false then
        let node' := { node with outputs := lastChild.outputs }
        retryMark (Nodes.set ns node'.id node') now node'.name
          NodePhase.succeeded none true none none
      else if shutdown ≠ "" ∨ workflowDeadlinePassed now workflowDeadline = true then
        let message :=
          if shutdown ≠ "" then shutdownStrategyMessage shutdown
          else "retry exceeded workflow deadline " ++
            toString (workflowDeadline.getD 0)
        retryMark ns now node.name lastChild.phase (some message) true none none
      else
        match rs.backoff with
        | some bo =>
          if bo.maxDuration ≠ "" ∧ node.children.length > 0 then
            match parseStringToDuration bo.maxDuration with
            | none => retryErr ns ("unable to parse " ++ bo.maxDuration ++ " as a duration")
            | some maxDuration =>
              match getChildNodeIndex node ns 0 with
              | none => retryErr ns "node uninitialized"
              | some firstChild =>
                let maxDurationDeadline := firstChild.startedAt + maxDuration
                if now > maxDurationDeadline then
                  retryMark ns now node.name lastChild.phase
                    (some "Max duration limit exceeded") true none none
                else
                  processRetriesBackoffWait ns now node lastChild rs bo
                    isTransientErr (some maxDurationDeadline)
          else
            processRetriesBackoffWait ns now node lastChild rs bo isTransientErr
              none
        | none =>
          processRetriesPolicy ns now node lastChild rs isTransientErr none

/-- The memoize block of a template: user key, optional max age (raw string),
and the config-map cache name. -/
structure MemoizeSpec where
  key : String
  maxAge : String
  cacheName : String
  deriving DecidableEq, Repr

/-- Modelled from the spec: a cache entry as the Memoizer sees it ("Entry
exposes Hit() and GetOutputsWithMaxAge(d)"; "a hit means an entry exists AND
(if maxAge is set) the entry's age ≤ maxAge"). `found` is whether an entry
exists under the key, `age` its age at lookup time. -/
structure CacheEntry where
  found : Bool
  age : Int
  outputs : Option Outputs
  deriving DecidableEq, Repr

/-- `Entry.Hit()`: an entry exists. -/
def CacheEntry.hit (e : CacheEntry) : Bool := e.found

/-- `Entry.GetOutputs()`. -/
def CacheEntry.getOutputs (e : CacheEntry) : Option Outputs := e.outputs

/-- `Entry.GetOutputsWithMaxAge(d)`: the outputs plus an ok flag that holds
when the entry exists and is no older than `maxAge`. -/
def CacheEntry.getOutputsWithMaxAge (e : CacheEntry) (maxAge : Int) :
    Option Outputs × Bool :=
  if e.found = true ∧ e.age ≤ maxAge then (e.outputs, true) else (none, false)

/-- The `NodeStatus` literal built by `initializeNode` (operator.go lines
2017-2041): fresh node at `now`, `finishedAt` stamped immediately when created
already fulfilled. -/
def freshNodeStatus (now : Int) (nodeName : String) (nodeType : NodeType)
    (phase : NodePhase) (message : Option String) : NodeStatus :=
  { id := nodeID nodeName, name := nodeName, typ := nodeType, phase := phase,
    message := message.getD "", startedAt := now,
    finishedAt := if phase.fulfilled then now else 0, children := [],
    outputs := none, hostNodeName := "", daemoned := none,
    memoizationStatus := none }

/-- operator.go `initializeNode` (lines 2008-2051), restricted to the fields
of the model (display names and duration estimation carry no claim). `none`
models the panic when the node already exists. -/
def initializeNode (ns : Nodes) (now : Int) (nodeName : String)
    (nodeType : NodeType) (phase : NodePhase) (message : Option String) :
    Option (Nodes × NodeStatus) :=
  match Nodes.get ns (nodeID nodeName) with
  | some _ => none
  | none =>
    some (Nodes.set ns (nodeID nodeName)
        (freshNodeStatus now nodeName nodeType phase message),
      freshNodeStatus now nodeName nodeType phase message)

/-- operator.go `initializeCacheNode` (lines 1987-1997): an executable node
created Pending whose returned copy carries the memoization status (the map
re-store happens in `executeTemplate`, mirrored by `memoizationCheck`). -/
def initializeCacheNode (ns : Nodes) (now : Int) (nodeName : String)
    (nodeType : NodeType) (memStat : MemoizationStatus) :
    Option (Nodes × NodeStatus) :=
  match initializeNode ns now nodeName nodeType NodePhase.pending none with
  | none => none
  | some (ns1, node) => some (ns1, { node with memoizationStatus := some memStat })

/-- operator.go `initializeCacheHitNode` (lines 1999-2006): a cache node
completed on creation — phase Succeeded, the cached outputs, `finishedAt`
now. -/
def initializeCacheHitNode (ns : Nodes) (now : Int) (nodeName : String)
    (nodeType : NodeType) (outputs : Option Outputs)
    (memStat : MemoizationStatus) : Option (Nodes × NodeStatus) :=
  match initializeCacheNode ns now nodeName nodeType memStat with
  | none => none
  | some (ns1, node) =>
    some (ns1, { node with phase := NodePhase.succeeded, outputs := outputs, finishedAt := now })

/-- The tail of the memoization check: build the memoization status, create
the hit or miss node and store it (operator.go lines 1562-1573). -/
def memoFinish (ns : Nodes) (now : Int) (nodeName : String)
    (nodeType : NodeType) (memo : MemoizeSpec) (hit : Bool)
    (outputs : Option Outputs) : Except String (Nodes × NodeStatus) :=
  let memStat : MemoizationStatus :=
    { hit := hit, key := memo.key, cacheName := memo.cacheName }
  match (if hit then initializeCacheHitNode ns now nodeName nodeType outputs memStat
         else initializeCacheNode ns now nodeName nodeType memStat) with
  | none => .error "node already initialized"
  | some (ns1, node) => .ok (Nodes.set ns1 node.id node, node)

/-- The memoization check of `executeTemplate` (operator.go lines 1530-1574),
entered when the node does not exist yet and the processed template is
memoized; `entry` is what `Cache.Load` returned for the template's key. -/
def memoizationCheck (ns : Nodes) (now : Int) (nodeName : String)
    (nodeType : NodeType) (memo : MemoizeSpec) (entry : CacheEntry) :
    Except String (Nodes × NodeStatus) :=
  let hit0 := entry.hit
  if memo.maxAge ≠ "" then
    match timeParseDuration memo.maxAge with
    | none => .error "invalid maxAge"
    | some maxAge =>
      let outputsOk := entry.getOutputsWithMaxAge maxAge
      let hit := if outputsOk.2 = false then false else hit0
      memoFinish ns now nodeName nodeType memo hit outputsOk.1
  else memoFinish ns now nodeName nodeType memo hit0 entry.getOutputs

/-- The hit condition exactly as claim C6 words it: an entry exists and, when
maxAge is set, the entry's outputs are within maxAge. -/
def claimedCacheHit (memo : MemoizeSpec) (entry : CacheEntry) : Bool :=
  entry.found &&
    (memo.maxAge = "" ||
      match timeParseDuration memo.maxAge with
      | some maxAge => decide (entry.age ≤ maxAge)
      | none => false)

/-- Container states the operator distinguishes: exactly one of the Go
`ContainerState` pointers is non-nil, or none of them (`unset`). -/
inductive CtrState where
  | waiting
  | running
  | terminated (exitCode : Int) (reason : String) (message : String)
  | unset
  deriving DecidableEq, Repr

/-- A container status: name plus state. -/
structure Ctr where
  name : String
  state : CtrState
  deriving DecidableEq, Repr

/-- Modelled from the spec: `common.InitContainerName`. -/
def initContainerName : String := "init"

/-- Modelled from the spec: `common.WaitContainerName`. -/
def waitContainerName : String := "wait"

/-- The container ranking of `inferFailedReason` (operator.go lines
1279-1290): init 0, main 1, wait 2, sidecars 3. `mains` is the template's
main-container name set behind `tmpl.IsMainContainerName`. -/
def ctrOrder (mains : List String) (n : String) : Nat :=
  if n = initContainerName then 0
  else if n ∈ mains then 1
  else if n = waitContainerName then 2
  else 3

/-- The `sort.Slice` of `inferFailedReason` (operator.go line 1293), by the
container rank. `sort.Slice` is unstable, so ties come in unspecified order;
rank-bucket concatenation realizes one sorted permutation, and every theorem
below is insensitive to the order within a rank. -/
def sortCtrsByOrder (mains : List String) (ctrs : List Ctr) : List Ctr :=
  (ctrs.filter fun c => ctrOrder mains c.name = 0) ++
    (ctrs.filter fun c => ctrOrder mains c.name = 1) ++
    (ctrs.filter fun c => ctrOrder mains c.name = 2) ++
    (ctrs.filter fun c => ctrOrder mains c.name = 3)

/-- The termination message of `inferFailedReason` (operator.go lines
1314-1317): reason and exit code, the container's own message appended when
non-empty. -/
def terminatedMessage (reason : String) (exitCode : Int) (tmsg : String) :
    String :=
  let msg := reason ++ " (exit code " ++ toString exitCode ++ ")"
  if tmsg ≠ "" then msg ++ ": " ++ tmsg else msg

/-- The container scan of `inferFailedReason` (operator.go lines 1295-1342):
first waiting or non-zero-terminated container decides, zero exits and
force-killed sidecars (exit 137 or 143) are skipped, and a fully skipped list
yields Succeeded. -/
def inferScan (mains : List String) : List Ctr → NodePhase × String
  | [] => (NodePhase.succeeded, "")
  | c :: rest =>
    match c.state with
    | .waiting =>
      (NodePhase.error, "Pod failed before " ++ c.name ++ " container starts")
    | .running => inferScan mains rest
    | .unset => inferScan mains rest
    | .terminated exitCode reason tmsg =>
      if exitCode = 0 then inferScan mains rest
      else
        let msg := terminatedMessage reason exitCode tmsg
        if c.name = initContainerName then (NodePhase.error, msg)
        else if c.name ∈ mains then (NodePhase.failed, msg)
        else if c.name = waitContainerName then (NodePhase.error, msg)
        else if exitCode = 137 ∨ exitCode = 143 then inferScan mains rest
        else (NodePhase.failed, msg)

/-- The fields of a Failed pod that `inferFailedReason` reads: the pod status
message and the init/main container statuses. -/
structure PodView where
  statusMessage : String
  initCtrStatuses : List Ctr
  ctrStatuses : List Ctr
  deriving DecidableEq, Repr

/-- operator.go `inferFailedReason` (lines 1266-1343). -/
def inferFailedReason (mains : List String) (pod : PodView) :
    NodePhase × String :=
  if pod.statusMessage ≠ "" then (NodePhase.failed, pod.statusMessage)
  else
    inferScan mains
      (sortCtrsByOrder mains (pod.initCtrStatuses ++ pod.ctrStatuses))

/-- The containers the scan of `inferFailedReason` steps over without
deciding: running or state-less containers, zero exits, and sidecars
(rank 3) force-killed with exit 137 or 143. -/
def inferSkips (mains : List String) (c : Ctr) : Bool :=
  match c.state with
  | .running => true
  | .unset => true
  | .waiting => false
  | .terminated e _ _ =>
    decide (e = 0 ∨ (ctrOrder mains c.name = 3 ∧ (e = 137 ∨ e = 143)))

/-- The verdict of the scan of `inferFailedReason` at its first deciding
container. -/
def inferDecision (mains : List String) (c : Ctr) : NodePhase × String :=
  match c.state with
  | .waiting =>
    (NodePhase.error, "Pod failed before " ++ c.name ++ " container starts")
  | .terminated e r m =>
    if c.name = initContainerName then (NodePhase.error, terminatedMessage r e m)
    else if c.name ∈ mains then (NodePhase.failed, terminatedMessage r e m)
    else if c.name = waitContainerName then
      (NodePhase.error, terminatedMessage r e m)
    else (NodePhase.failed, terminatedMessage r e m)
  | _ => (NodePhase.succeeded, "")

/-- A `markNodePhase` call whose caller has already checked that the node
exists, so the panic case cannot fire; it returns the map unchanged there. -/
def markIn (ns : Nodes) (now : Int) (nodeName : String) (phase : NodePhase)
    (message : Option String) : Nodes :=
  match markNodePhase ns now nodeName phase message with
  | none => ns
  | some m => m.nodes

/-- One iteration of the per-container sub-node loop of `assessNodeStatus`
(operator.go lines 1100-1124) for container `c` of node `nodeName`: when the
sub-node `NODE.CONTAINER` exists, mark it Pending when waiting, Running when
running, and on termination Succeeded for exit 0, Error for exit 64, Failed
otherwise. -/
def assessCtrStep (now : Int) (nodeName : String) (acc : Nodes) (c : Ctr) :
    Nodes :=
  match getNodeByName acc (nodeName ++ "." ++ c.name) with
  | none => acc
  | some _ =>
    match c.state with
    | .waiting => markIn acc now (nodeName ++ "." ++ c.name) NodePhase.pending none
    | .running => markIn acc now (nodeName ++ "." ++ c.name) NodePhase.running none
    | .unset => acc
    | .terminated exitCode reason tmsg =>
      if exitCode = 0 then
        markIn acc now (nodeName ++ "." ++ c.name) NodePhase.succeeded none
      else if exitCode = 64 then
        markIn acc now (nodeName ++ "." ++ c.name) NodePhase.error
          (some (reason ++ " (exit code " ++ toString exitCode ++ "): " ++ tmsg))
      else
        markIn acc now (nodeName ++ "." ++ c.name) NodePhase.failed
          (some (reason ++ " (exit code " ++ toString exitCode ++ "): " ++ tmsg))

/-- The per-container sub-node loop of `assessNodeStatus` (operator.go lines
1100-1124) over the pod's container statuses. -/
def assessCtrSubNodes (ns : Nodes) (now : Int) (nodeName : String)
    (ctrs : List Ctr) : Nodes :=
  ctrs.foldl (assessCtrStep now nodeName) ns

/-- The sub-node phase exactly as claim C8 words it: waiting gives Pending,
running gives Running, termination gives Succeeded for exit 0, Error for exit
64 and Failed for any other non-zero exit; a state-less container has no
verdict. -/
def claimedCtrPhase : CtrState → Option NodePhase
  | .waiting => some NodePhase.pending
  | .running => some NodePhase.running
  | .terminated e _ _ =>
    some (if e = 0 then NodePhase.succeeded
      else if e = 64 then NodePhase.error else NodePhase.failed)
  | .unset => none

/-- The well-formedness of the node map the operator maintains: every entry is
keyed by its node's ID, which is the hash of the node's name. -/
def Nodes.wellFormed (ns : Nodes) : Prop :=
  ∀ p ∈ ns, p.2.id = p.1 ∧ nodeID p.2.name = p.1

/-- Modelled from the spec: `wfv1.WaitingForSyncLock`, the reason carried by a
node left Pending for a synchronization lock; `GetReason()` reads the node's
message. Only its equality with itself matters to the operator. -/
def waitingForSyncLock : String := "Waiting for Sync lock"

/-- `NodeStatus.GetReason()` (modelled from the spec: the message records the
last phase explanation). -/
def NodeStatus.getReason (n : NodeStatus) : String := n.message

/-- operator.go `recentlyStarted` (lines 989-991): the node started within the
grace window (`RECENTLY_STARTED_POD_DURATION`); `time.Since` compares against
`now`. -/
def recentlyStarted (now grace : Int) (node : NodeStatus) : Bool :=
  decide (now - node.startedAt ≤ grace)

/-- The default of the `RECENTLY_STARTED_POD_DURATION` environment lookup:
ten seconds. -/
def defaultRecentlyStartedPodDuration : Int := 10 * 1000000000

/-- Result of the deleted-pod sweep: the node map and whether the workflow was
requeued. -/
structure ReconcileResult where
  nodes : Nodes
  requeued : Bool
  deriving DecidableEq, Repr

/-- One iteration of the deleted-pod sweep of `podReconciliation`
(operator.go lines 944-985) for the node under `key`. `seen` maps node IDs of
observed pods to the pod's `spec.nodeName` host. The daemon-flag reset of
lines 971-974 mutates a range copy that is never written back before
`markNodePhase` re-reads the map, so it leaves the map unchanged and has no
counterpart here. -/
def reconcileStep (now grace : Int) (seen : List (String × String))
    (acc : ReconcileResult) (key : String) : ReconcileResult :=
  match Nodes.get acc.nodes key with
  | none => acc
  | some node =>
    if node.typ ≠ NodeType.pod ∨ node.phase.fulfilled = true ∨ node.startedAt = 0 then
      acc
    else
      match seen.lookup key with
      | none =>
        if node.pending = true ∧ node.getReason = waitingForSyncLock then acc
        else if recentlyStarted now grace node = true then
          { acc with requeued := true }
        else
          match markNodePhase acc.nodes now node.name NodePhase.error
              (some "pod deleted") with
          | none => acc
          | some m => { acc with nodes := m.nodes }
      | some hostName =>
        if node.hostNodeName ≠ hostName then
          { acc with nodes :=
              Nodes.set acc.nodes key { node with hostNodeName := hostName } }
        else acc

/-- The deleted-pod sweep of `podReconciliation` (operator.go lines 944-986):
every node of the map is visited once; the map mutations of one step only
touch that step's node. -/
def reconcileDeletedPods (ns : Nodes) (now grace : Int)
    (seen : List (String × String)) : ReconcileResult :=
  (ns.map Prod.fst).foldl (reconcileStep now grace seen)
    { nodes := ns, requeued := false }

/-- The waiting time exactly as claim C4 words it: the base duration `d`
multiplied by the factor raised to the power (number of children − 1), a zero
or unset factor yielding the constant `d`. -/
def claimedBackoffWait (bo : RetryBackoff) (d : Int) (numChildren : Nat) : Int :=
  match bo.factor with
  | some factor => if 0 < factor then d * factor ^ (numChildren - 1) else d
  | none => d

/-- A concrete node for witnesses and counterexamples. -/
def sampleNode (name : String) (typ : NodeType) (phase : NodePhase) : NodeStatus :=
  { id := name, name := name, typ := typ, phase := phase, message := "",
    startedAt := 1, finishedAt := 0, children := [], outputs := none,
    hostNodeName := "", daemoned := none, memoizationStatus := none }

/-- A terminal (Succeeded) node used to exercise `markNodePhase`. -/
def succeededPodNode : NodeStatus :=
  { sampleNode "n" NodeType.pod NodePhase.succeeded with finishedAt := 3 }

/-- A retry parent whose only child is already an edge. -/
def retryParentWithChild : NodeStatus :=
  { sampleNode "p" NodeType.retry NodePhase.running with children := ["c"] }

/-- A fulfilled entry node for the C2 witness. -/
def c2Entry : NodeStatus := sampleNode "e" NodeType.steps NodePhase.succeeded

/-- An errored onExit node for the C2 witness. -/
def c2OnExit : NodeStatus :=
  { sampleNode "e.onExit" NodeType.pod NodePhase.error with message := "boom" }

/-- A failed first retry child, finished at t = 5. -/
def c4Child : NodeStatus :=
  { sampleNode "r(0)" NodeType.pod NodePhase.failed with
      startedAt := 2, finishedAt := 5, message := "oops" }

/-- A running retry parent with one child. -/
def c4Parent : NodeStatus :=
  { sampleNode "r" NodeType.retry NodePhase.running with children := ["r(0)"] }

/-- The node map of the C4 witness. -/
def c4Nodes : Nodes := [("r", c4Parent), ("r(0)", c4Child)]

/-- Back-off of ten seconds with factor two and no max duration. -/
def c4Backoff : RetryBackoff :=
  { duration := "10", factor := some 2, maxDuration := "" }

/-- The retry strategy of the C4 witness. -/
def c4Strategy : RetryStrategy :=
  { limit := some 3, retryPolicy := "", backoff := some c4Backoff }

/-- A clean fetched workflow for the C3 witness. -/
def c3FetchedOk : FetchedWf := { fulfilled := false, nodes := [] }

/-- An API environment whose fetches are clean and whose writes always
fail. -/
def c3Api : Nat → ApiAttempt := fun k =>
  { fetched := Except.ok c3FetchedOk, updateOk := false,
    updateErrMsg := "conflict " ++ toString k }

/-- An errored first retry child for the C5 counterexample. -/
def c5Child : NodeStatus :=
  { sampleNode "r(0)" NodeType.pod NodePhase.error with
      startedAt := 2, finishedAt := 5, message := "boom" }

/-- The node map of the C5 counterexample. -/
def c5Nodes : Nodes := [("r", c4Parent), ("r(0)", c5Child)]

/-- Retry policy Always with an exhausted limit of zero and no back-off. -/
def c5Strategy : RetryStrategy :=
  { limit := some 0, retryPolicy := "Always", backoff := none }

/-- A memoize block with no max age for the C6 witness. -/
def c6Memo : MemoizeSpec :=
  { key := "K", maxAge := "", cacheName := "cfg-cache" }

/-- A populated cache entry for the C6 witness. -/
def c6Entry : CacheEntry :=
  { found := true, age := 0, outputs := some ⟨some "0", [("out", "42")]⟩ }

/-- The per-container sub-node of the main container for the C8 witness. -/
def c8MainSub : NodeStatus :=
  sampleNode "pod-node.main" NodeType.container NodePhase.pending

/-- The node map of the C8 witness. -/
def c8Nodes : Nodes := [("pod-node.main", c8MainSub)]

/-- A cleanly terminated main container beside a waiting sidecar, for the C8
witness. -/
def c8Ctrs : List Ctr :=
  [⟨"main", CtrState.terminated 0 "Completed" ""⟩, ⟨"side", CtrState.waiting⟩]

/-- A running pod node that no observed pod matches, for the C9 witness. -/
def c9Node : NodeStatus :=
  { sampleNode "pn" NodeType.pod NodePhase.running with startedAt := 4 }

/-- The node map of the C9 witness. -/
def c9Nodes : Nodes := [("pn", c9Node)]

theorem Nodes.get_set_self (ns : Nodes) (id : String) (v : NodeStatus) :
    Nodes.get (Nodes.set ns id v) id = some v := by
  induction ns with
  | nil => simp [Nodes.set, Nodes.get]
  | cons p rest ih =>
    by_cases h : p.1 = id
    · simp [Nodes.set, Nodes.get, h]
    · simp [Nodes.set, Nodes.get, h, ih]

theorem Nodes.get_set_ne (ns : Nodes) (id id' : String) (v : NodeStatus)
    (h : id ≠ id') : Nodes.get (Nodes.set ns id v) id' = Nodes.get ns id' := by
  induction ns with
  | nil => simp [Nodes.set, Nodes.get, h]
  | cons p rest ih =>
    by_cases hp : p.1 = id
    · simp [Nodes.set, Nodes.get, hp, h]
    · simp [Nodes.set, Nodes.get, hp, ih]

/-- C1 counterexample: a node whose phase is terminal (Succeeded) is moved to
a different phase by `markNodePhase` — the code logs "node is already
fulfilled" but performs the transition, so terminal phases are not immutable
within a reconciliation. -/
theorem markNodePhase_moves_terminal_node :
    succeededPodNode.phase.fulfilled = true ∧
    NodePhase.succeeded ≠ NodePhase.failed ∧
    (markNodePhase [("n", succeededPodNode)] 10 "n" NodePhase.failed none).map
        (fun r => r.node.phase) = some NodePhase.failed ∧
    (markNodePhase [("n", succeededPodNode)] 10 "n" NodePhase.failed none).map
        (fun r => Nodes.get r.nodes "n") =
      some (some { succeededPodNode with phase := NodePhase.failed }) := by
  decide

/-- The marked node's phase, identity, name, children and message in terms of
the input node: `applyMarkPhase` always writes the requested phase and the
passed message and touches nothing else besides `finishedAt`. -/
theorem applyMarkPhase_spec (n : NodeStatus) (now : Int) (p : NodePhase)
    (m : Option String) :
    (applyMarkPhase n now p m).phase = p ∧
    (applyMarkPhase n now p m).id = n.id ∧
    (applyMarkPhase n now p m).name = n.name ∧
    (applyMarkPhase n now p m).children = n.children ∧
    (applyMarkPhase n now p m).startedAt = n.startedAt ∧
    (applyMarkPhase n now p m).typ = n.typ ∧
    (applyMarkPhase n now p m).message =
      (match m with
       | some s => s
       | none => n.message) := by
  unfold applyMarkPhase
  cases m <;> by_cases h1 : n.phase = p <;>
    simp [h1] <;> split_ifs <;> simp_all

/-- Rewriting lemma: on a present node, `markNodePhase` stores the marked node
under its ID. -/
theorem markNodePhase_eq_some (ns : Nodes) (now : Int) (nodeName : String)
    (p : NodePhase) (m : Option String) (node0 : NodeStatus)
    (h : getNodeByName ns nodeName = some node0) :
    markNodePhase ns now nodeName p m =
      some
        ⟨Nodes.set ns (applyMarkPhase node0 now p m).id (applyMarkPhase node0 now p m),
          applyMarkPhase node0 now p m⟩ := by
  unfold markNodePhase
  rw [h]

/-- C1 (amended): `markNodePhase` always writes the requested phase, whether
or not the node's current phase is terminal; the terminal-immutability
invariant is not enforced there (a terminal-to-different-phase call is only
logged). -/
theorem markNodePhase_sets_requested_phase (ns : Nodes) (now : Int)
    (nodeName : String) (phase : NodePhase) (message : Option String)
    (node0 : NodeStatus) (h : getNodeByName ns nodeName = some node0) :
    ∃ r, markNodePhase ns now nodeName phase message = some r ∧
      r.node.phase = phase := by
  refine ⟨_, markNodePhase_eq_some ns now nodeName phase message node0 h, ?_⟩
  exact (applyMarkPhase_spec node0 now phase message).1

/-- C1 witness: the amended theorem applied at a concrete terminal node. -/
theorem markNodePhase_sets_requested_phase_witness :
    getNodeByName [("n", succeededPodNode)] "n" = some succeededPodNode ∧
    (∃ r, markNodePhase [("n", succeededPodNode)] 10 "n" NodePhase.failed none
        = some r ∧ r.node.phase = NodePhase.failed) :=
  ⟨by decide,
    markNodePhase_sets_requested_phase [("n", succeededPodNode)] 10 "n"
      NodePhase.failed none succeededPodNode (by decide)⟩

/-- C10: `addChildNode` is idempotent on an initialized parent — a child edge
already present leaves the node map literally unchanged, repeating a call
equals a single call, and child lists stay duplicate-free. -/
theorem addChildNode_idempotent (ns : Nodes) (parent child : String)
    (node : NodeStatus) (h : Nodes.get ns (nodeID parent) = some node) :
    (nodeID child ∈ node.children → addChildNode ns parent child = some ns) ∧
    (∀ ns1, addChildNode ns parent child = some ns1 →
      addChildNode ns1 parent child = some ns1) ∧
    (node.children.Nodup → ∀ ns1, addChildNode ns parent child = some ns1 →
      ∀ node1, Nodes.get ns1 (nodeID parent) = some node1 →
        node1.children.Nodup) := by
  refine ⟨?_, ?_, ?_⟩
  · intro hmem
    simp [addChildNode, h, hmem]
  · intro ns1 h1
    by_cases hmem : nodeID child ∈ node.children
    · simp only [addChildNode, h, if_pos hmem, Option.some.injEq] at h1
      subst h1
      simp [addChildNode, h, hmem]
    · simp only [addChildNode, h, if_neg hmem, Option.some.injEq] at h1
      subst h1
      have hg := Nodes.get_set_self ns (nodeID parent)
        { node with children := node.children ++ [nodeID child] }
      simp [addChildNode, hg]
  · intro hnd ns1 h1 node1 hget
    by_cases hmem : nodeID child ∈ node.children
    · simp only [addChildNode, h, if_pos hmem, Option.some.injEq] at h1
      subst h1
      rw [h] at hget
      cases hget
      exact hnd
    · simp only [addChildNode, h, if_neg hmem, Option.some.injEq] at h1
      subst h1
      rw [Nodes.get_set_self] at hget
      cases hget
      simpa [List.nodup_append] using ⟨hnd, hmem⟩

/-- C10 witness: the idempotence theorem applied to a parent that already
holds the child edge. -/
theorem addChildNode_idempotent_witness :
    Nodes.get [("p", retryParentWithChild)] (nodeID "p") =
        some retryParentWithChild ∧
    (nodeID "c" ∈ retryParentWithChild.children →
      addChildNode [("p", retryParentWithChild)] "p" "c" =
        some [("p", retryParentWithChild)]) :=
  ⟨by decide,
    (addChildNode_idempotent [("p", retryParentWithChild)] "p" "c"
      retryParentWithChild (by decide)).1⟩

/-- C2: once the entry node — and the onExit node, when an onExit handler ran
— is fulfilled, `operate` sets the workflow phase by the mapping Pending to
Pending, Running to Running, Succeeded or Skipped or Omitted to Succeeded,
Failed to Failed, Error to Error applied to the entry node's phase, except
that an entry of class Succeeded with a failed or errored onExit node takes
the onExit node's failure class (Failed for NodeFailed, Error otherwise)
together with the onExit node's message. -/
theorem operate_workflow_phase_mapping (entry : NodeStatus)
    (onExitNode : Option NodeStatus) (shutdown : String)
    (hEntry : entry.fulfilled = true)
    (hOe : ∀ oe, onExitNode = some oe → oe.fulfilled = true) :
    ∃ out, operatePhaseInference entry onExitNode shutdown = some out ∧
      out.phase = claimedWorkflowPhase entry onExitNode ∧
      (∀ oe, onExitNode = some oe →
        workflowStatusOf entry.phase = WorkflowPhase.succeeded →
        oe.failedOrError = true → out.message = oe.message) := by
  cases onExitNode with
  | none =>
    refine ⟨operateFinishSwitch entry none shutdown, ?_, ?_, ?_⟩
    · simp [operatePhaseInference, hEntry]
    · cases hep : entry.phase <;>
        simp_all [NodeStatus.fulfilled, NodePhase.fulfilled, operateFinishSwitch,
          workflowStatusOf, claimedWorkflowPhase]
    · intro oe hoe
      cases hoe
  | some oe =>
    have hoe : oe.fulfilled = true := hOe oe rfl
    refine ⟨operateFinishSwitch entry (some oe) shutdown, ?_, ?_, ?_⟩
    · simp [operatePhaseInference, hEntry, hoe]
    · cases hep : entry.phase <;> cases heo : oe.phase <;>
        simp_all [NodeStatus.fulfilled, NodePhase.fulfilled, operateFinishSwitch,
          workflowStatusOf, claimedWorkflowPhase, NodeStatus.failedOrError,
          NodePhase.failedOrError]
    · intro oe' hoe' hcls hfe
      cases hoe'
      cases hep : entry.phase <;> cases heo : oe.phase <;>
        simp_all [NodeStatus.fulfilled, NodePhase.fulfilled, operateFinishSwitch,
          workflowStatusOf, claimedWorkflowPhase, NodeStatus.failedOrError,
          NodePhase.failedOrError]

/-- C2 witness: a succeeded entry with an errored onExit node — the workflow
becomes Error and carries the onExit node's message. -/
theorem operate_workflow_phase_mapping_witness :
    c2Entry.fulfilled = true ∧
    (∃ out, operatePhaseInference c2Entry (some c2OnExit) "" = some out ∧
      out.phase = claimedWorkflowPhase c2Entry (some c2OnExit) ∧
      (∀ oe, some c2OnExit = some oe →
        workflowStatusOf c2Entry.phase = WorkflowPhase.succeeded →
        oe.failedOrError = true → out.message = oe.message)) :=
  ⟨by decide,
    operate_workflow_phase_mapping c2Entry (some c2OnExit) "" (by decide)
      (by intro oe h; cases h; decide)⟩

/-- One loop iteration returns the workflow exactly when the fetched workflow
passed both regression checks and the `Update` went through. -/
theorem reapplyStep_ok_iff (wfNodes : List (String × NodePhase))
    (a : ApiAttempt) (u : Unit) :
    reapplyStep wfNodes a = .done (Except.ok u) ↔
      goodAttempt wfNodes a ∧ a.updateOk = true := by
  constructor
  · intro h
    unfold reapplyStep at h
    split at h
    · exact absurd h (by simp)
    · next currWf heq =>
      split at h
      · exact absurd h (by simp)
      · next hful =>
        split at h
        · exact absurd h (by simp)
        · next hconf =>
          split at h
          · next hupd => exact ⟨⟨currWf, heq, by simpa using hful, hconf⟩, hupd⟩
          · exact absurd h (by simp)
  · rintro ⟨⟨currWf, heq, hful, hconf⟩, hupd⟩
    unfold reapplyStep
    rw [heq]
    simp [hful, hconf, hupd]

/-- One loop iteration goes around exactly when the fetched workflow passed
both regression checks and the `Update` failed; the pending error is the
`Update` error. -/
theorem reapplyStep_retry_iff (wfNodes : List (String × NodePhase))
    (a : ApiAttempt) (e : String) :
    reapplyStep wfNodes a = .retryLoop e ↔
      goodAttempt wfNodes a ∧ a.updateOk = false ∧ e = a.updateErrMsg := by
  constructor
  · intro h
    unfold reapplyStep at h
    split at h
    · exact absurd h (by simp)
    · next currWf heq =>
      split at h
      · exact absurd h (by simp)
      · next hful =>
        split at h
        · exact absurd h (by simp)
        · next hconf =>
          split at h
          · exact absurd h (by simp)
          · next hupd =>
            refine ⟨⟨currWf, heq, by simpa using hful, hconf⟩,
              by simpa using hupd, ?_⟩
            cases h
            rfl
  · rintro ⟨⟨currWf, heq, hful, hconf⟩, hupd, he⟩
    unfold reapplyStep
    rw [heq]
    simp [hful, hconf, hupd, he]

/-- Success of the fetch-patch-write loop is only possible through an attempt
whose fetched workflow passed both regression checks; every earlier attempt
also passed them and failed only its `Update` call. -/
theorem reapplyLoop_ok_characterization (wfNodes : List (String × NodePhase))
    (api : Nat → ApiAttempt) :
    ∀ fuel attempt u, reapplyLoop wfNodes api attempt fuel = Except.ok u →
      ∃ k, attempt ≤ k ∧ k ≤ attempt + fuel ∧ goodAttempt wfNodes (api k) ∧
        (api k).updateOk = true ∧
        ∀ j, attempt ≤ j → j < k →
          goodAttempt wfNodes (api j) ∧ (api j).updateOk = false := by
  intro fuel
  induction fuel with
  | zero =>
    intro attempt u h
    unfold reapplyLoop at h
    split at h
    · next r hr =>
      subst h
      obtain ⟨hgood, hupd⟩ := (reapplyStep_ok_iff wfNodes (api attempt) u).mp hr
      exact ⟨attempt, le_refl _, by omega, hgood, hupd, fun j hj1 hj2 => by omega⟩
    · next e he =>
      split at h
      · exact absurd h (by simp)
      · exact absurd h (by simp)
  | succ fuel ih =>
    intro attempt u h
    unfold reapplyLoop at h
    split at h
    · next r hr =>
      subst h
      obtain ⟨hgood, hupd⟩ := (reapplyStep_ok_iff wfNodes (api attempt) u).mp hr
      exact ⟨attempt, le_refl _, by omega, hgood, hupd, fun j hj1 hj2 => by omega⟩
    · next e he =>
      split at h
      · exact absurd h (by simp)
      · next hle =>
        obtain ⟨hgood, hupd, _⟩ :=
          (reapplyStep_retry_iff wfNodes (api attempt) e).mp he
        obtain ⟨k, hk1, hk2, hgoodk, hupdk, hprefix⟩ := ih (attempt + 1) u h
        refine ⟨k, by omega, by omega, hgoodk, hupdk, ?_⟩
        intro j hj1 hj2
        by_cases hj : j = attempt
        · subst hj
          exact ⟨hgood, hupd⟩
        · exact hprefix j (by omega) hj2

/-- When every attempt up to the fifth passes the regression checks but fails
its `Update`, the loop gives up with the fifth attempt's error. -/
theorem reapplyLoop_all_fail (wfNodes : List (String × NodePhase))
    (api : Nat → ApiAttempt) :
    ∀ fuel attempt, attempt + fuel = 5 →
      (∀ k, attempt ≤ k → k ≤ 5 →
        goodAttempt wfNodes (api k) ∧ (api k).updateOk = false) →
      reapplyLoop wfNodes api attempt fuel =
        Except.error (api 5).updateErrMsg := by
  intro fuel
  induction fuel with
  | zero =>
    intro attempt h5 hall
    have ha : attempt = 5 := by omega
    subst ha
    obtain ⟨hgood, hupd⟩ := hall 5 (le_refl _) (le_refl _)
    have hs : reapplyStep wfNodes (api 5) = .retryLoop (api 5).updateErrMsg :=
      (reapplyStep_retry_iff wfNodes (api 5) _).mpr ⟨hgood, hupd, rfl⟩
    unfold reapplyLoop
    rw [hs]
    dsimp only
    rw [if_pos (by omega)]
  | succ fuel ih =>
    intro attempt h5 hall
    obtain ⟨hgood, hupd⟩ := hall attempt (le_refl _) (by omega)
    have hs : reapplyStep wfNodes (api attempt) =
        .retryLoop (api attempt).updateErrMsg :=
      (reapplyStep_retry_iff wfNodes (api attempt) _).mpr ⟨hgood, hupd, rfl⟩
    have hle : ¬ (attempt + 1 > 5) := by omega
    unfold reapplyLoop
    rw [hs]
    dsimp only
    rw [if_neg hle]
    exact ih (attempt + 1) (by omega) (fun k hk1 hk2 => hall k (by omega) hk2)

/-- C3: `reapplyUpdate` never returns an updated workflow through an attempt
whose freshly fetched workflow is already fulfilled or would regress a
terminal node — success singles out an attempt `k ≤ 5` whose fetch passed both
checks and whose write went through, every earlier attempt also passing the
checks and failing only the write; and when the write fails on all five
attempts the loop gives up with the last (fifth) error. -/
theorem reapplyUpdate_safety (wfNodes : List (String × NodePhase))
    (api : Nat → ApiAttempt) :
    (∀ u, reapplyUpdate wfNodes api = Except.ok u →
      ∃ k, 1 ≤ k ∧ k ≤ 5 ∧ goodAttempt wfNodes (api k) ∧
        (api k).updateOk = true ∧
        ∀ j, 1 ≤ j → j < k →
          goodAttempt wfNodes (api j) ∧ (api j).updateOk = false) ∧
    ((∀ k, 1 ≤ k → k ≤ 5 →
        goodAttempt wfNodes (api k) ∧ (api k).updateOk = false) →
      reapplyUpdate wfNodes api = Except.error (api 5).updateErrMsg) := by
  constructor
  · intro u h
    obtain ⟨k, h1, h2, h3, h4, h5⟩ :=
      reapplyLoop_ok_characterization wfNodes api 4 1 u h
    exact ⟨k, h1, by omega, h3, h4, h5⟩
  · intro hall
    exact reapplyLoop_all_fail wfNodes api 4 1 (by omega)
      (fun k hk1 hk2 => hall k hk1 hk2)

theorem getChildNodeIndex_length_pos (node : NodeStatus) (ns : Nodes) (i : Int)
    (c : NodeStatus) (h : getChildNodeIndex node ns i = some c) :
    0 < node.children.length := by
  by_cases hl : node.children.length = 0
  · rw [getChildNodeIndex, if_pos hl] at h
    exact absurd h (by simp)
  · omega

theorem retryMark_requeueAfter_none (ns : Nodes) (now : Int) (nodeName : String)
    (p : NodePhase) (m : Option String) (c : Bool) (ed : Option Int) :
    (retryMark ns now nodeName p m c none ed).requeueAfter = none := by
  unfold retryMark retryErr
  split <;> rfl

theorem processRetriesPolicy_requeueAfter_none (ns : Nodes) (now : Int)
    (node lastChild : NodeStatus) (rs : RetryStrategy)
    (isTransientErr : String → Bool) (ed : Option Int) :
    (processRetriesPolicy ns now node lastChild rs isTransientErr ed).requeueAfter
      = none := by
  unfold processRetriesPolicy
  split
  · rfl
  · split
    · exact retryMark_requeueAfter_none ns now node.name lastChild.phase
        (some lastChild.message) true ed
    · split
      · exact retryMark_requeueAfter_none ns now node.name lastChild.phase
          (some lastChild.message) true ed
      · split
        · split
          · exact retryMark_requeueAfter_none ns now node.name lastChild.phase
              (some "No more retries left") true ed
          · rfl
        · rfl

/-- The code's wait agrees with the wait exactly as claim C4 words it. -/
theorem backoffTimeToWait_eq_claimed (bo : RetryBackoff) (d : Int) (k : Nat) :
    backoffTimeToWait bo d k = claimedBackoffWait bo d k := by
  unfold backoffTimeToWait claimedBackoffWait
  cases bo.factor <;> rfl

theorem parseStringToDuration_ne_empty {s : String} {d : Int}
    (h : parseStringToDuration s = some d) : s ≠ "" := by
  intro he
  have hempty : parseStringToDuration "" = none := by decide
  rw [he, hempty] at h
  exact Option.noConfusion h

/-- The back-off requeue branch: once `duration` parses and the waiting
deadline neither exceeds the max-duration deadline nor has been reached, the
code requeues after the claimed wait with the "Backoff for" annotation and
does not continue. -/
theorem processRetriesBackoffWait_requeue (ns : Nodes) (now : Int)
    (node lastChild : NodeStatus) (rs : RetryStrategy) (bo : RetryBackoff)
    (isTransientErr : String → Bool) (mdd : Option Int) (d : Int)
    (hdur : parseStringToDuration bo.duration = some d)
    (hmem : getNodeByName ns node.name = some node)
    (hmdd : ∀ md, mdd = some md →
      ¬ lastChild.finishedAt + claimedBackoffWait bo d node.children.length > md)
    (hnow : now < lastChild.finishedAt + claimedBackoffWait bo d node.children.length) :
    processRetriesBackoffWait ns now node lastChild rs bo isTransientErr mdd =
      { nodes := Nodes.set ns
          (applyMarkPhase node now node.phase
            (some ("Backoff for " ++
              humanizeDuration (claimedBackoffWait bo d node.children.length)))).id
          (applyMarkPhase node now node.phase
            (some ("Backoff for " ++
              humanizeDuration (claimedBackoffWait bo d node.children.length)))),
        node := some (applyMarkPhase node now node.phase
          (some ("Backoff for " ++
            humanizeDuration (claimedBackoffWait bo d node.children.length)))),
        continueExec := false, err := none,
        requeueAfter := some (claimedBackoffWait bo d node.children.length),
        executionDeadline := none } := by
  have hne : bo.duration ≠ "" := parseStringToDuration_ne_empty hdur
  unfold processRetriesBackoffWait
  rw [if_neg hne, hdur]
  simp only [backoffTimeToWait_eq_claimed]
  cases hm : mdd with
  | some md =>
    dsimp only
    rw [if_neg (hmdd md hm), if_pos hnow]
    rw [retryMark, markNodePhase_eq_some ns now node.name node.phase _ node hmem]
  | none =>
    dsimp only
    rw [if_pos hnow]
    rw [retryMark, markNodePhase_eq_some ns now node.name node.phase _ node hmem]

/-- C4: for a retry node with a back-off strategy whose last child is
fulfilled and failed or errored — the retry proceeding, with no shutdown and
the workflow deadline not passed — the computed wait equals
`duration · factor^(children − 1)` with a zero or unset factor giving the
constant duration; when `now` is before `lastChild.finishedAt + wait` (and the
max-duration guards pass) `processNodeRetries` requeues after exactly that
wait, sets the node message to the "Backoff for" annotation and reports
not-continue; and whenever a requeue is scheduled under a declared
`maxDuration`, the waiting deadline stays within `maxDuration` measured from
the first child's `startedAt`. -/
theorem processNodeRetries_backoff_spec (ns : Nodes) (now : Int)
    (node lastChild : NodeStatus) (rs : RetryStrategy) (bo : RetryBackoff)
    (workflowDeadline : Option Int) (isTransientErr : String → Bool) (d : Int)
    (hnf : node.fulfilled = false)
    (hlast : getChildNodeIndex node ns (-1) = some lastChild)
    (hlf : lastChild.fulfilled = true)
    (hfe : lastChild.failedOrError = true)
    (hwd : workflowDeadlinePassed now workflowDeadline = false)
    (hbo : rs.backoff = some bo)
    (hdur : parseStringToDuration bo.duration = some d)
    (hmem : getNodeByName ns node.name = some node) :
    ((bo.maxDuration = "" ∨
        (∃ m fc, parseStringToDuration bo.maxDuration = some m ∧
          getChildNodeIndex node ns 0 = some fc ∧
          ¬ now > fc.startedAt + m ∧
          ¬ lastChild.finishedAt +
              claimedBackoffWait bo d node.children.length > fc.startedAt + m)) →
      now < lastChild.finishedAt + claimedBackoffWait bo d node.children.length →
      processNodeRetries ns now node rs "" workflowDeadline isTransientErr =
        { nodes := Nodes.set ns
            (applyMarkPhase node now node.phase
              (some ("Backoff for " ++
                humanizeDuration (claimedBackoffWait bo d node.children.length)))).id
            (applyMarkPhase node now node.phase
              (some ("Backoff for " ++
                humanizeDuration (claimedBackoffWait bo d node.children.length)))),
          node := some (applyMarkPhase node now node.phase
            (some ("Backoff for " ++
              humanizeDuration (claimedBackoffWait bo d node.children.length)))),
          continueExec := false, err := none,
          requeueAfter := some (claimedBackoffWait bo d node.children.length),
          executionDeadline := none }) ∧
    (∀ m fc w, parseStringToDuration bo.maxDuration = some m →
      getChildNodeIndex node ns 0 = some fc →
      (processNodeRetries ns now node rs "" workflowDeadline
          isTransientErr).requeueAfter = some w →
      w = claimedBackoffWait bo d node.children.length ∧
      lastChild.finishedAt + w ≤ fc.startedAt + m) := by
  have hlen : 0 < node.children.length :=
    getChildNodeIndex_length_pos node ns (-1) lastChild hlast
  have hdne : bo.duration ≠ "" := parseStringToDuration_ne_empty hdur
  constructor
  · intro hmax hnow
    rcases hmax with hempty | ⟨m, fc, hm, hfc, hnm, hnb⟩
    · have hcond : ¬(bo.maxDuration ≠ "" ∧ node.children.length > 0) := by
        simp [hempty]
      simp only [processNodeRetries, hnf, Bool.false_eq_true, if_false, hlast,
        hlf, Bool.true_eq_false, hfe, hwd, ne_eq, not_true_eq_false, or_self,
        hbo, if_neg hcond]
      exact processRetriesBackoffWait_requeue ns now node lastChild rs bo
        isTransientErr none d hdur hmem (fun md h => Option.noConfusion h) hnow
    · have hmne : bo.maxDuration ≠ "" := parseStringToDuration_ne_empty hm
      have hcond : bo.maxDuration ≠ "" ∧ node.children.length > 0 := ⟨hmne, hlen⟩
      simp only [processNodeRetries, hnf, Bool.false_eq_true, if_false, hlast,
        hlf, Bool.true_eq_false, hfe, hwd, ne_eq, not_true_eq_false, or_self,
        hbo, if_pos hcond, hm, hfc, if_neg hnm]
      exact processRetriesBackoffWait_requeue ns now node lastChild rs bo
        isTransientErr (some (fc.startedAt + m)) d hdur hmem
        (fun md h => by
          cases h
          exact hnb) hnow
  · intro m fc w hm hfc hreq
    have hmne : bo.maxDuration ≠ "" := parseStringToDuration_ne_empty hm
    have hcond : bo.maxDuration ≠ "" ∧ node.children.length > 0 := ⟨hmne, hlen⟩
    simp only [processNodeRetries, hnf, Bool.false_eq_true, if_false, hlast,
      hlf, Bool.true_eq_false, hfe, hwd, ne_eq, not_true_eq_false, or_self,
      hbo, if_pos hcond, hm, hfc] at hreq
    split at hreq
    · rw [retryMark_requeueAfter_none] at hreq
      exact Option.noConfusion hreq
    · next hgt =>
      unfold processRetriesBackoffWait at hreq
      rw [if_neg hdne, hdur] at hreq
      simp only [backoffTimeToWait_eq_claimed] at hreq
      split at hreq
      · rw [retryMark_requeueAfter_none] at hreq
        exact Option.noConfusion hreq
      · next hnb =>
        split at hreq
        · next hlt =>
          rw [retryMark,
            markNodePhase_eq_some ns now node.name node.phase _ node hmem] at hreq
          dsimp only at hreq
          cases hreq
          exact ⟨rfl, by omega⟩
        · next hge =>
          rw [markNodePhase_eq_some ns now node.name node.phase _ node hmem]
            at hreq
          dsimp only at hreq
          rw [processRetriesPolicy_requeueAfter_none] at hreq
          exact Option.noConfusion hreq

/-- C4 witness: one failed child, duration "10" (ten seconds), factor 2 — the
call at t = 7 requeues after 10·2⁰ seconds with the "Backoff for" message and
does not continue. -/
theorem processNodeRetries_backoff_spec_witness :
    processNodeRetries c4Nodes 7 c4Parent c4Strategy "" none (fun _ => false) =
      { nodes := Nodes.set c4Nodes
          (applyMarkPhase c4Parent 7 c4Parent.phase
            (some ("Backoff for " ++ humanizeDuration
              (claimedBackoffWait c4Backoff 10000000000
                c4Parent.children.length)))).id
          (applyMarkPhase c4Parent 7 c4Parent.phase
            (some ("Backoff for " ++ humanizeDuration
              (claimedBackoffWait c4Backoff 10000000000
                c4Parent.children.length)))),
        node := some (applyMarkPhase c4Parent 7 c4Parent.phase
          (some ("Backoff for " ++ humanizeDuration
            (claimedBackoffWait c4Backoff 10000000000
              c4Parent.children.length)))),
        continueExec := false, err := none,
        requeueAfter := some
          (claimedBackoffWait c4Backoff 10000000000 c4Parent.children.length),
        executionDeadline := none } :=
  (processNodeRetries_backoff_spec c4Nodes 7 c4Parent c4Child c4Strategy
      c4Backoff none (fun _ => false) 10000000000 (by decide) (by decide)
      (by decide) (by decide) (by decide) (by decide) (by decide)
      (by decide)).1 (Or.inl (by decide)) (by decide)

/-- C5 counterexample: an errored last child under policy Always with the
limit exhausted — the retry node is marked with the last child's phase
(Error), not Failed, with the "No more retries left" message, so the claim's
"marks the retry node Failed" fails as stated. -/
theorem processNodeRetries_limit_error_counterexample :
    (processNodeRetries c5Nodes 100 c4Parent c5Strategy "" none
        (fun _ => false)).node.map (fun n => (n.phase, n.message)) =
      some (NodePhase.error, "No more retries left") ∧
    NodePhase.error ≠ NodePhase.failed := by
  decide

/-- C5 (amended): for a retry node whose fulfilled last child failed or
errored, whose policy allows the retry, and whose strategy declares a limit
the child count exceeds, `processNodeRetries` marks the retry node with the
last child's phase (Failed for a failed child, Error for an errored one) and
the message "No more retries left"; the marked node is fulfilled, so no
further children are spawned. -/
theorem processNodeRetries_limit_spec (ns : Nodes) (now : Int)
    (node lastChild : NodeStatus) (rs : RetryStrategy)
    (workflowDeadline : Option Int) (isTransientErr : String → Bool) (l : Int)
    (rf re : Bool)
    (hnf : node.fulfilled = false)
    (hlast : getChildNodeIndex node ns (-1) = some lastChild)
    (hlf : lastChild.fulfilled = true)
    (hfe : lastChild.failedOrError = true)
    (hwd : workflowDeadlinePassed now workflowDeadline = false)
    (hbo : rs.backoff = none)
    (hmem : getNodeByName ns node.name = some node)
    (hpol : retryPolicyFlags rs.retryPolicy lastChild isTransientErr =
      some (rf, re))
    (hallow : ¬((lastChild.phase = NodePhase.failed ∧ rf = false) ∨
      (lastChild.phase = NodePhase.error ∧ re = false)))
    (hlimit : rs.limit = some l)
    (hexceed : (node.children.length : Int) > l) :
    processNodeRetries ns now node rs "" workflowDeadline isTransientErr =
      { nodes := Nodes.set ns
          (applyMarkPhase node now lastChild.phase
            (some "No more retries left")).id
          (applyMarkPhase node now lastChild.phase
            (some "No more retries left")),
        node := some (applyMarkPhase node now lastChild.phase
          (some "No more retries left")),
        continueExec := true, err := none, requeueAfter := none,
        executionDeadline := none } ∧
    (applyMarkPhase node now lastChild.phase
      (some "No more retries left")).phase = lastChild.phase ∧
    (applyMarkPhase node now lastChild.phase
      (some "No more retries left")).fulfilled = true := by
  have hcr : ¬(lastChild.canRetry = false) := by
    simp [NodeStatus.canRetry, hfe]
  refine ⟨?_, (applyMarkPhase_spec node now lastChild.phase
    (some "No more retries left")).1, ?_⟩
  · simp only [processNodeRetries, hnf, Bool.false_eq_true, if_false, hlast,
      hlf, Bool.true_eq_false, hfe, hwd, ne_eq, not_true_eq_false, or_self,
      hbo]
    unfold processRetriesPolicy
    rw [hpol]
    dsimp only
    rw [if_neg hallow, if_neg hcr, hlimit]
    dsimp only
    rw [if_pos hexceed]
    rw [retryMark,
      markNodePhase_eq_some ns now node.name lastChild.phase _ node hmem]
  · simp only [NodeStatus.fulfilled,
      (applyMarkPhase_spec node now lastChild.phase
        (some "No more retries left")).1]
    simp only [NodeStatus.fulfilled] at hlf
    exact hlf

/-- C5 witness: the amended theorem applied to the errored-child fixture. -/
theorem processNodeRetries_limit_spec_witness :
    processNodeRetries c5Nodes 100 c4Parent c5Strategy "" none
        (fun _ => false) =
      { nodes := Nodes.set c5Nodes
          (applyMarkPhase c4Parent 100 c5Child.phase
            (some "No more retries left")).id
          (applyMarkPhase c4Parent 100 c5Child.phase
            (some "No more retries left")),
        node := some (applyMarkPhase c4Parent 100 c5Child.phase
          (some "No more retries left")),
        continueExec := true, err := none, requeueAfter := none,
        executionDeadline := none } ∧
    (applyMarkPhase c4Parent 100 c5Child.phase
      (some "No more retries left")).phase = c5Child.phase ∧
    (applyMarkPhase c4Parent 100 c5Child.phase
      (some "No more retries left")).fulfilled = true :=
  processNodeRetries_limit_spec c5Nodes 100 c4Parent c5Child c5Strategy none
    (fun _ => false) 0 true true (by decide) (by decide) (by decide)
    (by decide) (by decide) (by decide) (by decide) (by decide) (by decide)
    (by decide) (by decide)

/-- C3 witness: an environment where every fetch is clean but every write
fails — after five attempts `reapplyUpdate` gives up with the fifth attempt's
error. -/
theorem reapplyUpdate_safety_witness :
    (∀ k, 1 ≤ k → k ≤ 5 →
      goodAttempt [] (c3Api k) ∧ (c3Api k).updateOk = false) ∧
    reapplyUpdate [] c3Api = Except.error (c3Api 5).updateErrMsg :=
  have hall : ∀ k, 1 ≤ k → k ≤ 5 →
      goodAttempt [] (c3Api k) ∧ (c3Api k).updateOk = false :=
    fun _ _ _ => ⟨⟨c3FetchedOk, rfl, rfl, rfl⟩, rfl⟩
  ⟨hall, (reapplyUpdate_safety [] c3Api).2 hall⟩

/-- The memo-status node creation: on an absent node name, `memoFinish` stores
a fresh node carrying the memoization status, already Succeeded with the given
outputs on a hit, Pending with no outputs on a miss. -/
theorem memoFinish_spec (ns : Nodes) (now : Int) (nodeName : String)
    (nodeType : NodeType) (memo : MemoizeSpec) (hit : Bool)
    (outputs : Option Outputs)
    (habsent : Nodes.get ns (nodeID nodeName) = none) :
    ∃ ns1 n, memoFinish ns now nodeName nodeType memo hit outputs =
        Except.ok (ns1, n) ∧
      n.memoizationStatus =
        some { hit := hit, key := memo.key, cacheName := memo.cacheName } ∧
      n.id = nodeID nodeName ∧
      (hit = true → n.phase = NodePhase.succeeded ∧ n.outputs = outputs ∧
        n.finishedAt = now ∧ n.fulfilled = true) ∧
      (hit = false → n.phase = NodePhase.pending ∧ n.outputs = none) ∧
      Nodes.get ns1 (nodeID nodeName) = some n := by
  cases hit with
  | true =>
    unfold memoFinish initializeCacheHitNode initializeCacheNode initializeNode
    rw [habsent]
    dsimp only [if_true]
    refine ⟨_, _, rfl, rfl, rfl, ?_, ?_, ?_⟩
    · intro _
      exact ⟨rfl, rfl, rfl, rfl⟩
    · intro h
      exact Bool.noConfusion h
    · exact Nodes.get_set_self _ _ _
  | false =>
    unfold memoFinish initializeCacheHitNode initializeCacheNode initializeNode
    rw [habsent]
    dsimp only [if_false]
    refine ⟨_, _, rfl, rfl, rfl, ?_, ?_, ?_⟩
    · intro h
      exact Bool.noConfusion h
    · intro _
      exact ⟨rfl, rfl⟩
    · exact Nodes.get_set_self _ _ _

/-- C6: when a memoized template is executed at a node name never seen before,
the cache lookup counts as a hit exactly when an entry exists and — when
maxAge is set — the entry's outputs are within maxAge; on a hit the node is
created already Succeeded with the cached outputs and a memoization status
recording the hit, key and cache name (the node being fulfilled, so
`executeTemplate` returns before any pod is created); on a miss it is created
Pending with a memoization status recording `hit = false`. -/
theorem memoization_check_spec (ns : Nodes) (now : Int) (nodeName : String)
    (nodeType : NodeType) (memo : MemoizeSpec) (entry : CacheEntry)
    (habsent : Nodes.get ns (nodeID nodeName) = none)
    (hage : memo.maxAge = "" ∨ ∃ ma, timeParseDuration memo.maxAge = some ma) :
    ∃ ns1 n, memoizationCheck ns now nodeName nodeType memo entry =
        Except.ok (ns1, n) ∧
      n.memoizationStatus =
        some ⟨claimedCacheHit memo entry, memo.key, memo.cacheName⟩ ∧
      (claimedCacheHit memo entry = true →
        n.phase = NodePhase.succeeded ∧ n.outputs = entry.outputs ∧
        n.fulfilled = true) ∧
      (claimedCacheHit memo entry = false →
        n.phase = NodePhase.pending ∧ n.outputs = none) ∧
      Nodes.get ns1 (nodeID nodeName) = some n := by
  by_cases hma : memo.maxAge = ""
  · have hclaim : claimedCacheHit memo entry = entry.found := by
      simp [claimedCacheHit, hma]
    unfold memoizationCheck
    rw [if_neg (by simp [hma])]
    obtain ⟨ns1, n, heq, hms, hid, hhit, hmiss, hget⟩ :=
      memoFinish_spec ns now nodeName nodeType memo entry.hit entry.getOutputs
        habsent
    refine ⟨ns1, n, heq, ?_, ?_, ?_, hget⟩
    · rw [hms, hclaim]
      rfl
    · intro hc
      rw [hclaim] at hc
      obtain ⟨h1, h2, _, h4⟩ := hhit (by simpa [CacheEntry.hit] using hc)
      exact ⟨h1, h2, h4⟩
    · intro hc
      rw [hclaim] at hc
      exact hmiss (by simpa [CacheEntry.hit] using hc)
  · obtain ⟨ma, hparse⟩ := hage.resolve_left hma
    unfold memoizationCheck
    rw [if_pos hma, hparse]
    dsimp only
    by_cases hok : entry.found = true ∧ entry.age ≤ ma
    · have hclaim : claimedCacheHit memo entry = true := by
        simp [claimedCacheHit, hparse, hok.1, hok.2]
      have hout : entry.getOutputsWithMaxAge ma = (entry.outputs, true) := by
        simp [CacheEntry.getOutputsWithMaxAge, hok]
      rw [hout]
      dsimp only
      have hhit0 : entry.hit = true := by simpa [CacheEntry.hit] using hok.1
      rw [if_neg (by simp), hhit0]
      obtain ⟨ns1, n, heq, hms, hid, hhit, hmiss, hget⟩ :=
        memoFinish_spec ns now nodeName nodeType memo true entry.outputs habsent
      refine ⟨ns1, n, heq, ?_, ?_, ?_, hget⟩
      · rw [hms, hclaim]
      · intro _
        obtain ⟨h1, h2, _, h4⟩ := hhit rfl
        exact ⟨h1, h2, h4⟩
      · intro hc
        rw [hclaim] at hc
        exact Bool.noConfusion hc
    · have hclaim : claimedCacheHit memo entry = false := by
        cases hf : entry.found with
        | false => simp [claimedCacheHit, hf]
        | true =>
          have hna : ¬ entry.age ≤ ma := fun ha => hok ⟨hf, ha⟩
          simp [claimedCacheHit, hf, hparse, hna, hma]
      have hout : entry.getOutputsWithMaxAge ma = (none, false) := by
        simp [CacheEntry.getOutputsWithMaxAge, hok]
      rw [hout]
      dsimp only
      rw [if_pos rfl]
      obtain ⟨ns1, n, heq, hms, hid, hhit, hmiss, hget⟩ :=
        memoFinish_spec ns now nodeName nodeType memo false none habsent
      refine ⟨ns1, n, heq, ?_, ?_, ?_, hget⟩
      · rw [hms, hclaim]
      · intro hc
        rw [hclaim] at hc
        exact Bool.noConfusion hc
      · intro _
        exact hmiss rfl

/-- Witness for C6: looking up a fresh node against a populated no-max-age
cache entry yields a Succeeded cache-hit node. -/
theorem memoization_check_spec_witness :
    ∃ ns1 n, memoizationCheck [] 5 "memo-node" NodeType.pod c6Memo c6Entry =
        Except.ok (ns1, n) ∧
      n.memoizationStatus =
        some ⟨claimedCacheHit c6Memo c6Entry, c6Memo.key, c6Memo.cacheName⟩ ∧
      (claimedCacheHit c6Memo c6Entry = true →
        n.phase = NodePhase.succeeded ∧ n.outputs = c6Entry.outputs ∧
        n.fulfilled = true) ∧
      (claimedCacheHit c6Memo c6Entry = false →
        n.phase = NodePhase.pending ∧ n.outputs = none) ∧
      Nodes.get ns1 (nodeID "memo-node") = some n :=
  memoization_check_spec [] 5 "memo-node" NodeType.pod c6Memo c6Entry rfl
    (Or.inl rfl)

theorem ctrOrder_cases (mains : List String) (n : String) :
    ctrOrder mains n = 0 ∨ ctrOrder mains n = 1 ∨ ctrOrder mains n = 2 ∨
      ctrOrder mains n = 3 := by
  unfold ctrOrder
  split_ifs <;> simp

theorem ctrOrder_eq_zero_iff (mains : List String) (n : String) :
    ctrOrder mains n = 0 ↔ n = initContainerName := by
  unfold ctrOrder
  split_ifs <;> simp_all

theorem ctrOrder_eq_one_iff (mains : List String) (n : String) :
    ctrOrder mains n = 1 ↔ (n ≠ initContainerName ∧ n ∈ mains) := by
  unfold ctrOrder
  split_ifs <;> simp_all

theorem ctrOrder_eq_two_iff (mains : List String) (n : String) :
    ctrOrder mains n = 2 ↔
      (n ≠ initContainerName ∧ n ∉ mains ∧ n = waitContainerName) := by
  unfold ctrOrder
  split_ifs <;> simp_all

theorem ctrOrder_eq_three_iff (mains : List String) (n : String) :
    ctrOrder mains n = 3 ↔
      (n ≠ initContainerName ∧ n ∉ mains ∧ n ≠ waitContainerName) := by
  unfold ctrOrder
  split_ifs <;> simp_all

theorem inferScan_skip (mains : List String) (c : Ctr) (l : List Ctr)
    (h : inferSkips mains c = true) :
    inferScan mains (c :: l) = inferScan mains l := by
  cases hc : c.state with
  | running => simp [inferScan, hc]
  | unset => simp [inferScan, hc]
  | waiting =>
    rw [inferSkips, hc] at h
    exact Bool.noConfusion h
  | terminated e r m =>
    rw [inferSkips, hc] at h
    have hcond := of_decide_eq_true h
    rcases hcond with h0 | ⟨h3, h137⟩
    · simp [inferScan, hc, h0]
    · obtain ⟨hni, hnm, hnw⟩ := (ctrOrder_eq_three_iff mains c.name).mp h3
      have he0 : ¬ e = 0 := by
        intro he
        subst he
        simp [ctrOrder] at h3
        rcases h137 with h | h <;> omega
      simp [inferScan, hc, he0, hni, hnm, hnw, h137]

theorem inferScan_decide (mains : List String) (c : Ctr) (l : List Ctr)
    (h : inferSkips mains c = false) :
    inferScan mains (c :: l) = inferDecision mains c := by
  cases hc : c.state with
  | running =>
    rw [inferSkips, hc] at h
    exact Bool.noConfusion h
  | unset =>
    rw [inferSkips, hc] at h
    exact Bool.noConfusion h
  | waiting => simp [inferScan, inferDecision, hc]
  | terminated e r m =>
    rw [inferSkips, hc] at h
    have hcond := of_decide_eq_false h
    push_neg at hcond
    obtain ⟨he0, hside⟩ := hcond
    by_cases hni : c.name = initContainerName
    · simp [inferScan, inferDecision, hc, he0, hni]
    · by_cases hnm : c.name ∈ mains
      · simp [inferScan, inferDecision, hc, he0, hni, hnm]
      · by_cases hnw : c.name = waitContainerName
        · simp [inferScan, inferDecision, hc, he0, hni, hnm, hnw]
        · have h3 : ctrOrder mains c.name = 3 :=
            (ctrOrder_eq_three_iff mains c.name).mpr ⟨hni, hnm, hnw⟩
          have h137 := hside h3
          simp [inferScan, inferDecision, hc, he0, hni, hnm, hnw, h137]

theorem inferScan_all_skip (mains : List String) (l : List Ctr)
    (h : ∀ c ∈ l, inferSkips mains c = true) :
    inferScan mains l = (NodePhase.succeeded, "") := by
  induction l with
  | nil => rfl
  | cons c rest ih =>
    rw [inferScan_skip mains c rest (h c (by simp))]
    exact ih (fun x hx => h x (by simp [hx]))

theorem inferScan_append_skip (mains : List String) (l1 l2 : List Ctr)
    (h : ∀ c ∈ l1, inferSkips mains c = true) :
    inferScan mains (l1 ++ l2) = inferScan mains l2 := by
  induction l1 with
  | nil => rfl
  | cons c rest ih =>
    rw [List.cons_append, inferScan_skip mains c _ (h c (by simp))]
    exact ih (fun x hx => h x (by simp [hx]))

theorem inferScan_of_first (mains : List String) (l1 : List Ctr) (d : Ctr)
    (l2 : List Ctr) (h1 : ∀ c ∈ l1, inferSkips mains c = true)
    (hd : inferSkips mains d = false) :
    inferScan mains (l1 ++ d :: l2) = inferDecision mains d := by
  rw [inferScan_append_skip mains l1 _ h1, inferScan_decide mains d l2 hd]

theorem exists_first_decider (mains : List String) :
    ∀ l : List Ctr, (∃ c ∈ l, inferSkips mains c = false) →
      ∃ l1 d l2, l = l1 ++ d :: l2 ∧ (∀ c ∈ l1, inferSkips mains c = true) ∧
        inferSkips mains d = false := by
  intro l
  induction l with
  | nil =>
    rintro ⟨c, hc, _⟩
    exact absurd hc (by simp)
  | cons c rest ih =>
    rintro ⟨x, hx, hxs⟩
    by_cases hc : inferSkips mains c = false
    · exact ⟨[], c, rest, rfl, by simp, hc⟩
    · have hcs : inferSkips mains c = true := by
        cases h : inferSkips mains c
        · exact absurd h hc
        · rfl
      have hxrest : x ∈ rest := by
        rcases List.mem_cons.mp hx with hxc | hxr
        · subst hxc
          exact absurd hxs hc
        · exact hxr
      obtain ⟨l1, d, l2, heq, hl1, hd⟩ := ih ⟨x, hxrest, hxs⟩
      refine ⟨c :: l1, d, l2, by rw [heq, List.cons_append], ?_, hd⟩
      intro y hy
      rcases List.mem_cons.mp hy with hyc | hyl
      · subst hyc
        exact hcs
      · exact hl1 y hyl

theorem mem_sortCtrsByOrder (mains : List String) (l : List Ctr) (c : Ctr) :
    c ∈ sortCtrsByOrder mains l ↔ c ∈ l := by
  simp only [sortCtrsByOrder, List.mem_append, List.mem_filter,
    decide_eq_true_eq]
  constructor
  · rintro (((⟨h, _⟩ | ⟨h, _⟩) | ⟨h, _⟩) | ⟨h, _⟩) <;> exact h
  · intro hc
    rcases ctrOrder_cases mains c.name with h | h | h | h
    · exact Or.inl (Or.inl (Or.inl ⟨hc, h⟩))
    · exact Or.inl (Or.inl (Or.inr ⟨hc, h⟩))
    · exact Or.inl (Or.inr ⟨hc, h⟩)
    · exact Or.inr ⟨hc, h⟩

theorem inferDecision_rank_zero (mains : List String) (d : Ctr)
    (h0 : ctrOrder mains d.name = 0) (hd : inferSkips mains d = false) :
    (inferDecision mains d).1 = NodePhase.error := by
  have hni := (ctrOrder_eq_zero_iff mains d.name).mp h0
  cases hc : d.state with
  | running =>
    rw [inferSkips, hc] at hd
    exact Bool.noConfusion hd
  | unset =>
    rw [inferSkips, hc] at hd
    exact Bool.noConfusion hd
  | waiting => simp [inferDecision, hc]
  | terminated e r m => simp [inferDecision, hc, hni]

theorem inferDecision_rank_one (mains : List String) (d : Ctr)
    (h1 : ctrOrder mains d.name = 1) (hd : inferSkips mains d = false)
    (hw : d.state ≠ CtrState.waiting) :
    (inferDecision mains d).1 = NodePhase.failed := by
  obtain ⟨hni, hm⟩ := (ctrOrder_eq_one_iff mains d.name).mp h1
  cases hc : d.state with
  | running =>
    rw [inferSkips, hc] at hd
    exact Bool.noConfusion hd
  | unset =>
    rw [inferSkips, hc] at hd
    exact Bool.noConfusion hd
  | waiting => exact absurd hc hw
  | terminated e r m => simp [inferDecision, hc, hni, hm]

theorem inferDecision_rank_two (mains : List String) (d : Ctr)
    (h2 : ctrOrder mains d.name = 2) (hd : inferSkips mains d = false)
    (hw : d.state ≠ CtrState.waiting) :
    (inferDecision mains d).1 = NodePhase.error := by
  obtain ⟨hni, hm, hwn⟩ := (ctrOrder_eq_two_iff mains d.name).mp h2
  cases hc : d.state with
  | running =>
    rw [inferSkips, hc] at hd
    exact Bool.noConfusion hd
  | unset =>
    rw [inferSkips, hc] at hd
    exact Bool.noConfusion hd
  | waiting => exact absurd hc hw
  | terminated e r m =>
    have hwi : waitContainerName ≠ initContainerName := by decide
    have hmm : waitContainerName ∉ mains := hwn ▸ hm
    simp [inferDecision, hc, hni, hm, hwn, hwi, hmm]

theorem inferDecision_rank_three (mains : List String) (d : Ctr)
    (h3 : ctrOrder mains d.name = 3) (hd : inferSkips mains d = false)
    (hw : d.state ≠ CtrState.waiting) :
    (inferDecision mains d).1 = NodePhase.failed := by
  obtain ⟨hni, hm, hwn⟩ := (ctrOrder_eq_three_iff mains d.name).mp h3
  cases hc : d.state with
  | running =>
    rw [inferSkips, hc] at hd
    exact Bool.noConfusion hd
  | unset =>
    rw [inferSkips, hc] at hd
    exact Bool.noConfusion hd
  | waiting => exact absurd hc hw
  | terminated e r m => simp [inferDecision, hc, hni, hm, hwn]

/-- The scan of a skipped prefix, a bucket holding a decider, and a rest:
the first decider of the bucket decides. -/
theorem inferScan_bucket (mains : List String) (P B R : List Ctr)
    (hP : ∀ c ∈ P, inferSkips mains c = true)
    (hex : ∃ c ∈ B, inferSkips mains c = false) :
    ∃ d, d ∈ B ∧ inferSkips mains d = false ∧
      inferScan mains (P ++ (B ++ R)) = inferDecision mains d := by
  obtain ⟨l1, d, l2, heq, hl1, hd⟩ := exists_first_decider mains B hex
  refine ⟨d, by rw [heq]; simp, hd, ?_⟩
  rw [inferScan_append_skip mains P _ hP, heq,
    show (l1 ++ d :: l2) ++ R = l1 ++ d :: (l2 ++ R) by simp]
  exact inferScan_of_first mains l1 d _ hl1 hd

/-- In the rank-sorted container list, when every container of rank below `r`
is skippable and rank `r` holds a decider, the scan's verdict is the decision
of some rank-`r` decider. -/
theorem inferFailedReason_bucket (mains : List String) (l : List Ctr) (r : Nat)
    (hpre : ∀ c ∈ l, ctrOrder mains c.name < r → inferSkips mains c = true)
    (hex : ∃ c ∈ l, ctrOrder mains c.name = r ∧ inferSkips mains c = false) :
    ∃ d, d ∈ l ∧ ctrOrder mains d.name = r ∧ inferSkips mains d = false ∧
      inferScan mains (sortCtrsByOrder mains l) = inferDecision mains d := by
  obtain ⟨c, hc, hcr, hcs⟩ := hex
  have hpreF : ∀ s, s < r →
      ∀ x ∈ (l.filter fun y => ctrOrder mains y.name = s),
        inferSkips mains x = true := by
    intro s hs x hx
    obtain ⟨hx1, hx2⟩ := List.mem_filter.mp hx
    have hxr : ctrOrder mains x.name = s := of_decide_eq_true hx2
    exact hpre x hx1 (by omega)
  match r, hcr with
  | 0, hcr =>
    have hshape : sortCtrsByOrder mains l =
        [] ++ ((l.filter fun x => ctrOrder mains x.name = 0) ++
          ((l.filter fun x => ctrOrder mains x.name = 1) ++
            ((l.filter fun x => ctrOrder mains x.name = 2) ++
              (l.filter fun x => ctrOrder mains x.name = 3)))) := by
      simp [sortCtrsByOrder, List.append_assoc]
    obtain ⟨d, hdB, hds, hscan⟩ := inferScan_bucket mains []
      (l.filter fun x => ctrOrder mains x.name = 0)
      ((l.filter fun x => ctrOrder mains x.name = 1) ++
        ((l.filter fun x => ctrOrder mains x.name = 2) ++
          (l.filter fun x => ctrOrder mains x.name = 3)))
      (by simp) ⟨c, List.mem_filter.mpr ⟨hc, decide_eq_true hcr⟩, hcs⟩
    exact ⟨d, (List.mem_filter.mp hdB).1,
      of_decide_eq_true (List.mem_filter.mp hdB).2, hds, by
        rw [hshape]
        exact hscan⟩
  | 1, hcr =>
    have hshape : sortCtrsByOrder mains l =
        (l.filter fun x => ctrOrder mains x.name = 0) ++
          ((l.filter fun x => ctrOrder mains x.name = 1) ++
            ((l.filter fun x => ctrOrder mains x.name = 2) ++
              (l.filter fun x => ctrOrder mains x.name = 3))) := by
      simp [sortCtrsByOrder, List.append_assoc]
    obtain ⟨d, hdB, hds, hscan⟩ := inferScan_bucket mains
      (l.filter fun x => ctrOrder mains x.name = 0)
      (l.filter fun x => ctrOrder mains x.name = 1)
      ((l.filter fun x => ctrOrder mains x.name = 2) ++
        (l.filter fun x => ctrOrder mains x.name = 3))
      (hpreF 0 (by omega)) ⟨c, List.mem_filter.mpr ⟨hc, decide_eq_true hcr⟩, hcs⟩
    exact ⟨d, (List.mem_filter.mp hdB).1,
      of_decide_eq_true (List.mem_filter.mp hdB).2, hds, by
        rw [hshape]
        exact hscan⟩
  | 2, hcr =>
    have hshape : sortCtrsByOrder mains l =
        ((l.filter fun x => ctrOrder mains x.name = 0) ++
            (l.filter fun x => ctrOrder mains x.name = 1)) ++
          ((l.filter fun x => ctrOrder mains x.name = 2) ++
            (l.filter fun x => ctrOrder mains x.name = 3)) := by
      simp [sortCtrsByOrder, List.append_assoc]
    obtain ⟨d, hdB, hds, hscan⟩ := inferScan_bucket mains
      ((l.filter fun x => ctrOrder mains x.name = 0) ++
        (l.filter fun x => ctrOrder mains x.name = 1))
      (l.filter fun x => ctrOrder mains x.name = 2)
      (l.filter fun x => ctrOrder mains x.name = 3)
      (by
        intro x hx
        rcases List.mem_append.mp hx with hx0 | hx1
        · exact hpreF 0 (by omega) x hx0
        · exact hpreF 1 (by omega) x hx1) ⟨c, List.mem_filter.mpr ⟨hc, decide_eq_true hcr⟩, hcs⟩
    exact ⟨d, (List.mem_filter.mp hdB).1,
      of_decide_eq_true (List.mem_filter.mp hdB).2, hds, by
        rw [hshape]
        exact hscan⟩
  | 3, hcr =>
    have hshape : sortCtrsByOrder mains l =
        (((l.filter fun x => ctrOrder mains x.name = 0) ++
            (l.filter fun x => ctrOrder mains x.name = 1)) ++
          (l.filter fun x => ctrOrder mains x.name = 2)) ++
          ((l.filter fun x => ctrOrder mains x.name = 3) ++ []) := by
      simp [sortCtrsByOrder, List.append_assoc]
    obtain ⟨d, hdB, hds, hscan⟩ := inferScan_bucket mains
      (((l.filter fun x => ctrOrder mains x.name = 0) ++
          (l.filter fun x => ctrOrder mains x.name = 1)) ++
        (l.filter fun x => ctrOrder mains x.name = 2))
      (l.filter fun x => ctrOrder mains x.name = 3) []
      (by
        intro x hx
        rcases List.mem_append.mp hx with hx01 | hx2
        · rcases List.mem_append.mp hx01 with hx0 | hx1
          · exact hpreF 0 (by omega) x hx0
          · exact hpreF 1 (by omega) x hx1
        · exact hpreF 2 (by omega) x hx2) ⟨c, List.mem_filter.mpr ⟨hc, decide_eq_true hcr⟩, hcs⟩
    exact ⟨d, (List.mem_filter.mp hdB).1,
      of_decide_eq_true (List.mem_filter.mp hdB).2, hds, by
        rw [hshape]
        exact hscan⟩
  | s + 4, hcr =>
    exfalso
    rcases ctrOrder_cases mains c.name with h | h | h | h <;> omega

/-- C7: for a Failed pod that is not daemoned, `inferFailedReason` returns
NodeFailed with the pod status message when that is non-empty; with an empty
status message it scans the containers in rank order init, main, wait,
sidecars — Error when a failing (waiting or non-zero-terminated) init
container decides, Failed for a failing main container, Error for a failing
wait container, Failed for a failing sidecar, force-killed sidecars (exit 137
or 143) being ignored; a pod whose only deciding containers are still Waiting
yields Error with the "Pod failed before X container starts" message; and when
every container is skippable the result is NodeSucceeded. -/
theorem inferFailedReason_spec (mains : List String) (pod : PodView) :
    (pod.statusMessage ≠ "" →
      inferFailedReason mains pod = (NodePhase.failed, pod.statusMessage)) ∧
    (pod.statusMessage = "" →
      (∀ c ∈ pod.initCtrStatuses ++ pod.ctrStatuses,
        inferSkips mains c = true) →
      inferFailedReason mains pod = (NodePhase.succeeded, "")) ∧
    (pod.statusMessage = "" →
      (∃ c ∈ pod.initCtrStatuses ++ pod.ctrStatuses,
        ctrOrder mains c.name = 0 ∧ inferSkips mains c = false) →
      (inferFailedReason mains pod).1 = NodePhase.error) ∧
    (pod.statusMessage = "" →
      (∀ c ∈ pod.initCtrStatuses ++ pod.ctrStatuses,
        ctrOrder mains c.name = 0 → inferSkips mains c = true) →
      (∃ c ∈ pod.initCtrStatuses ++ pod.ctrStatuses,
        ctrOrder mains c.name = 1 ∧ inferSkips mains c = false) →
      (∀ c ∈ pod.initCtrStatuses ++ pod.ctrStatuses,
        ctrOrder mains c.name = 1 → c.state ≠ CtrState.waiting) →
      (inferFailedReason mains pod).1 = NodePhase.failed) ∧
    (pod.statusMessage = "" →
      (∀ c ∈ pod.initCtrStatuses ++ pod.ctrStatuses,
        ctrOrder mains c.name ≤ 1 → inferSkips mains c = true) →
      (∃ c ∈ pod.initCtrStatuses ++ pod.ctrStatuses,
        ctrOrder mains c.name = 2 ∧ inferSkips mains c = false) →
      (∀ c ∈ pod.initCtrStatuses ++ pod.ctrStatuses,
        ctrOrder mains c.name = 2 → c.state ≠ CtrState.waiting) →
      (inferFailedReason mains pod).1 = NodePhase.error) ∧
    (pod.statusMessage = "" →
      (∀ c ∈ pod.initCtrStatuses ++ pod.ctrStatuses,
        ctrOrder mains c.name ≤ 2 → inferSkips mains c = true) →
      (∃ c ∈ pod.initCtrStatuses ++ pod.ctrStatuses,
        ctrOrder mains c.name = 3 ∧ inferSkips mains c = false) →
      (∀ c ∈ pod.initCtrStatuses ++ pod.ctrStatuses,
        ctrOrder mains c.name = 3 → c.state ≠ CtrState.waiting) →
      (inferFailedReason mains pod).1 = NodePhase.failed) ∧
    (pod.statusMessage = "" →
      (∀ c ∈ pod.initCtrStatuses ++ pod.ctrStatuses,
        c.state ≠ CtrState.waiting → inferSkips mains c = true) →
      (∃ c ∈ pod.initCtrStatuses ++ pod.ctrStatuses,
        c.state = CtrState.waiting) →
      ∃ w, w ∈ pod.initCtrStatuses ++ pod.ctrStatuses ∧
        w.state = CtrState.waiting ∧
        inferFailedReason mains pod = (NodePhase.error,
          "Pod failed before " ++ w.name ++ " container starts")) := by
  have hbase : pod.statusMessage = "" →
      inferFailedReason mains pod =
        inferScan mains
          (sortCtrsByOrder mains (pod.initCtrStatuses ++ pod.ctrStatuses)) := by
    intro hmsg
    unfold inferFailedReason
    rw [if_neg (by simp [hmsg])]
  refine ⟨?_, ?_, ?_, ?_, ?_, ?_, ?_⟩
  · intro hmsg
    unfold inferFailedReason
    rw [if_pos hmsg]
  · intro hmsg hall
    rw [hbase hmsg]
    refine inferScan_all_skip mains _ ?_
    intro c hc
    exact hall c ((mem_sortCtrsByOrder mains _ c).mp hc)
  · intro hmsg hex
    rw [hbase hmsg]
    obtain ⟨d, hdm, hdr, hds, hscan⟩ := inferFailedReason_bucket mains
      (pod.initCtrStatuses ++ pod.ctrStatuses) 0 (by omega) hex
    rw [hscan]
    exact inferDecision_rank_zero mains d hdr hds
  · intro hmsg h0 hex hw
    rw [hbase hmsg]
    obtain ⟨d, hdm, hdr, hds, hscan⟩ := inferFailedReason_bucket mains
      (pod.initCtrStatuses ++ pod.ctrStatuses) 1
      (fun c hc hlt => h0 c hc (by omega)) hex
    rw [hscan]
    exact inferDecision_rank_one mains d hdr hds (hw d hdm hdr)
  · intro hmsg h01 hex hw
    rw [hbase hmsg]
    obtain ⟨d, hdm, hdr, hds, hscan⟩ := inferFailedReason_bucket mains
      (pod.initCtrStatuses ++ pod.ctrStatuses) 2
      (fun c hc hlt => h01 c hc (by omega)) hex
    rw [hscan]
    exact inferDecision_rank_two mains d hdr hds (hw d hdm hdr)
  · intro hmsg h012 hex hw
    rw [hbase hmsg]
    obtain ⟨d, hdm, hdr, hds, hscan⟩ := inferFailedReason_bucket mains
      (pod.initCtrStatuses ++ pod.ctrStatuses) 3
      (fun c hc hlt => h012 c hc (by omega)) hex
    rw [hscan]
    exact inferDecision_rank_three mains d hdr hds (hw d hdm hdr)
  · intro hmsg hskips hex
    obtain ⟨c, hc, hcw⟩ := hex
    have hcs : inferSkips mains c = false := by
      rw [inferSkips, hcw]
    have hex2 : ∃ x ∈ sortCtrsByOrder mains
        (pod.initCtrStatuses ++ pod.ctrStatuses),
        inferSkips mains x = false :=
      ⟨c, (mem_sortCtrsByOrder mains _ c).mpr hc, hcs⟩
    obtain ⟨l1, d, l2, heq, hl1, hd⟩ := exists_first_decider mains _ hex2
    have hdmem : d ∈ pod.initCtrStatuses ++ pod.ctrStatuses := by
      refine (mem_sortCtrsByOrder mains _ d).mp ?_
      rw [heq]
      simp
    have hdw : d.state = CtrState.waiting := by
      by_contra hne
      exact absurd (hskips d hdmem hne) (by simp [hd])
    refine ⟨d, hdmem, hdw, ?_⟩
    rw [hbase hmsg, heq, inferScan_of_first mains l1 d l2 hl1 hd]
    rw [inferDecision, hdw]
theorem Nodes.get_mem {ns : Nodes} {k : String} {v : NodeStatus}
    (h : Nodes.get ns k = some v) : (k, v) ∈ ns := by
  induction ns with
  | nil => exact absurd h (by simp [Nodes.get])
  | cons p rest ih =>
    rw [Nodes.get] at h
    by_cases hp : p.1 = k
    · rw [if_pos hp] at h
      injection h with h'
      subst hp
      subst h'
      simp
    · rw [if_neg hp] at h
      exact List.mem_cons_of_mem p (ih h)

theorem Nodes.mem_set {ns : Nodes} {k : String} {v : NodeStatus}
    {p : String × NodeStatus} (h : p ∈ Nodes.set ns k v) :
    p = (k, v) ∨ p ∈ ns := by
  induction ns with
  | nil =>
    rw [Nodes.set] at h
    simp at h
    exact Or.inl h
  | cons q rest ih =>
    rw [Nodes.set] at h
    by_cases hq : q.1 = k
    · rw [if_pos hq] at h
      rcases List.mem_cons.mp h with h1 | h2
      · exact Or.inl h1
      · exact Or.inr (List.mem_cons_of_mem q h2)
    · rw [if_neg hq] at h
      rcases List.mem_cons.mp h with h1 | h2
      · exact Or.inr (h1 ▸ List.mem_cons_self q rest)
      · rcases ih h2 with h3 | h4
        · exact Or.inl h3
        · exact Or.inr (List.mem_cons_of_mem q h4)

theorem Nodes.wellFormed_get {ns : Nodes} {k : String} {v : NodeStatus}
    (hwf : Nodes.wellFormed ns) (h : Nodes.get ns k = some v) :
    v.id = k ∧ nodeID v.name = k :=
  hwf (k, v) (Nodes.get_mem h)

theorem Nodes.wellFormed_set {ns : Nodes} {k : String} {v : NodeStatus}
    (hwf : Nodes.wellFormed ns) (hv : v.id = k ∧ nodeID v.name = k) :
    Nodes.wellFormed (Nodes.set ns k v) := by
  intro p hp
  rcases Nodes.mem_set hp with h1 | h2
  · subst h1
    exact hv
  · exact hwf p h2

theorem markNodePhase_none {ns : Nodes} {now : Int} {name : String}
    {p : NodePhase} {m : Option String}
    (h : getNodeByName ns name = none) :
    markNodePhase ns now name p m = none := by
  unfold markNodePhase
  rw [h]

theorem markIn_none {ns : Nodes} {now : Int} {name : String} {p : NodePhase}
    {m : Option String} (h : getNodeByName ns name = none) :
    markIn ns now name p m = ns := by
  unfold markIn
  rw [markNodePhase_none h]

theorem markIn_eq {ns : Nodes} {now : Int} {name : String} {p : NodePhase}
    {m : Option String} {node0 : NodeStatus}
    (h : getNodeByName ns name = some node0) :
    markIn ns now name p m =
      Nodes.set ns (applyMarkPhase node0 now p m).id
        (applyMarkPhase node0 now p m) := by
  unfold markIn
  rw [markNodePhase_eq_some ns now name p m node0 h]

theorem markIn_wellFormed {ns : Nodes} {now : Int} {name : String}
    {p : NodePhase} {m : Option String} (hwf : Nodes.wellFormed ns) :
    Nodes.wellFormed (markIn ns now name p m) := by
  cases hg : getNodeByName ns name with
  | none =>
    rw [markIn_none hg]
    exact hwf
  | some node0 =>
    rw [markIn_eq hg]
    obtain ⟨hid, hname⟩ := Nodes.wellFormed_get hwf hg
    apply Nodes.wellFormed_set hwf
    refine ⟨rfl, ?_⟩
    rw [(applyMarkPhase_spec node0 now p m).2.2.1,
      (applyMarkPhase_spec node0 now p m).2.1, hname, hid]

theorem markIn_get_ne {ns : Nodes} {now : Int} {name : String} {p : NodePhase}
    {m : Option String} {k : String} (hwf : Nodes.wellFormed ns)
    (hk : k ≠ nodeID name) :
    Nodes.get (markIn ns now name p m) k = Nodes.get ns k := by
  cases hg : getNodeByName ns name with
  | none => rw [markIn_none hg]
  | some node0 =>
    rw [markIn_eq hg]
    have hid := (Nodes.wellFormed_get hwf hg).1
    rw [(applyMarkPhase_spec node0 now p m).2.1, hid]
    exact Nodes.get_set_ne ns (nodeID name) k _ (fun he => hk he.symm)

theorem markIn_get_self {ns : Nodes} {now : Int} {name : String}
    {p : NodePhase} {m : Option String} {node0 : NodeStatus}
    (hwf : Nodes.wellFormed ns) (hg : getNodeByName ns name = some node0) :
    Nodes.get (markIn ns now name p m) (nodeID name) =
      some (applyMarkPhase node0 now p m) := by
  rw [markIn_eq hg]
  have hid := (Nodes.wellFormed_get hwf hg).1
  rw [(applyMarkPhase_spec node0 now p m).2.1, hid]
  exact Nodes.get_set_self ns (nodeID name) _

theorem assessCtrStep_wellFormed {now : Int} {nodeName : String} {acc : Nodes}
    {c : Ctr} (hwf : Nodes.wellFormed acc) :
    Nodes.wellFormed (assessCtrStep now nodeName acc c) := by
  unfold assessCtrStep
  split
  · exact hwf
  · split
    · exact markIn_wellFormed hwf
    · exact markIn_wellFormed hwf
    · exact hwf
    · split_ifs <;> exact markIn_wellFormed hwf

theorem assessCtrStep_get_ne {now : Int} {nodeName : String} {acc : Nodes}
    {c : Ctr} {k : String} (hwf : Nodes.wellFormed acc)
    (hk : k ≠ nodeID (nodeName ++ "." ++ c.name)) :
    Nodes.get (assessCtrStep now nodeName acc c) k = Nodes.get acc k := by
  unfold assessCtrStep
  split
  · rfl
  · split
    · exact markIn_get_ne hwf hk
    · exact markIn_get_ne hwf hk
    · rfl
    · split_ifs <;> exact markIn_get_ne hwf hk

theorem assessCtrStep_get_self {now : Int} {nodeName : String} {acc : Nodes}
    {c : Ctr} {sub : NodeStatus} {ph : NodePhase} (hwf : Nodes.wellFormed acc)
    (hsub : Nodes.get acc (nodeID (nodeName ++ "." ++ c.name)) = some sub)
    (hph : claimedCtrPhase c.state = some ph) :
    ∃ sub', Nodes.get (assessCtrStep now nodeName acc c)
        (nodeID (nodeName ++ "." ++ c.name)) = some sub' ∧
      sub'.phase = ph := by
  have hg : getNodeByName acc (nodeName ++ "." ++ c.name) = some sub := hsub
  unfold assessCtrStep
  rw [hg]
  cases hcs : c.state with
  | waiting =>
    rw [hcs] at hph
    simp only [claimedCtrPhase, Option.some.injEq] at hph
    subst hph
    exact ⟨_, markIn_get_self hwf hg, (applyMarkPhase_spec sub now _ _).1⟩
  | running =>
    rw [hcs] at hph
    simp only [claimedCtrPhase, Option.some.injEq] at hph
    subst hph
    exact ⟨_, markIn_get_self hwf hg, (applyMarkPhase_spec sub now _ _).1⟩
  | unset =>
    rw [hcs] at hph
    simp [claimedCtrPhase] at hph
  | terminated e r m =>
    rw [hcs] at hph
    simp only [claimedCtrPhase, Option.some.injEq] at hph
    dsimp only
    by_cases he0 : e = 0
    · rw [if_pos he0]
      rw [if_pos he0] at hph
      subst hph
      exact ⟨_, markIn_get_self hwf hg, (applyMarkPhase_spec sub now _ _).1⟩
    · rw [if_neg he0]
      rw [if_neg he0] at hph
      by_cases he64 : e = 64
      · rw [if_pos he64]
        rw [if_pos he64] at hph
        subst hph
        exact ⟨_, markIn_get_self hwf hg, (applyMarkPhase_spec sub now _ _).1⟩
      · rw [if_neg he64]
        rw [if_neg he64] at hph
        subst hph
        exact ⟨_, markIn_get_self hwf hg, (applyMarkPhase_spec sub now _ _).1⟩

theorem assessFold_wellFormed (now : Int) (nodeName : String) :
    ∀ (ctrs : List Ctr) (acc : Nodes), Nodes.wellFormed acc →
      Nodes.wellFormed (ctrs.foldl (assessCtrStep now nodeName) acc) := by
  intro ctrs
  induction ctrs with
  | nil => exact fun acc h => h
  | cons c rest ih =>
    intro acc hwf
    rw [List.foldl_cons]
    exact ih _ (assessCtrStep_wellFormed hwf)

theorem assessFold_get_ne (now : Int) (nodeName : String) :
    ∀ (ctrs : List Ctr) (acc : Nodes) (k : String), Nodes.wellFormed acc →
      (∀ c ∈ ctrs, k ≠ nodeID (nodeName ++ "." ++ c.name)) →
      Nodes.get (ctrs.foldl (assessCtrStep now nodeName) acc) k =
        Nodes.get acc k := by
  intro ctrs
  induction ctrs with
  | nil => exact fun acc k _ _ => rfl
  | cons c rest ih =>
    intro acc k hwf hks
    rw [List.foldl_cons,
      ih _ k (assessCtrStep_wellFormed hwf) (fun x hx => hks x (by simp [hx])),
      assessCtrStep_get_ne hwf (hks c (by simp))]

/-- C8: during pod assessment, every container whose per-container sub-node
`NODE.CONTAINER` exists in the node graph gets that sub-node's phase set from
its container state — waiting gives Pending, running gives Running, and a
terminated container gives Succeeded on exit 0, Error on exit 64, and Failed
on any other non-zero exit. -/
theorem assessCtrSubNodes_spec (now : Int) (nodeName : String) :
    ∀ (ctrs : List Ctr) (ns : Nodes), Nodes.wellFormed ns →
      (ctrs.map fun c => nodeID (nodeName ++ "." ++ c.name)).Nodup →
      ∀ c ∈ ctrs, ∀ ph, claimedCtrPhase c.state = some ph →
      ∀ sub, Nodes.get ns (nodeID (nodeName ++ "." ++ c.name)) = some sub →
      ∃ sub', Nodes.get (assessCtrSubNodes ns now nodeName ctrs)
          (nodeID (nodeName ++ "." ++ c.name)) = some sub' ∧
        sub'.phase = ph := by
  intro ctrs
  induction ctrs with
  | nil =>
    intro ns _ _ c hc
    exact absurd hc (by simp)
  | cons c0 rest ih =>
    intro ns hwf hnd c hc ph hph sub hsub
    have hwf' : Nodes.wellFormed (assessCtrStep now nodeName ns c0) :=
      assessCtrStep_wellFormed hwf
    have hnd' : (rest.map fun c => nodeID (nodeName ++ "." ++ c.name)).Nodup :=
      (List.nodup_cons.mp hnd).2
    have hne0 : ∀ c' ∈ rest, nodeID (nodeName ++ "." ++ c0.name) ≠
        nodeID (nodeName ++ "." ++ c'.name) := by
      intro c' hc' he
      apply (List.nodup_cons.mp hnd).1
      show nodeID (nodeName ++ "." ++ c0.name) ∈
        List.map (fun c => nodeID (nodeName ++ "." ++ c.name)) rest
      rw [he]
      exact List.mem_map_of_mem _ hc'
    rcases List.mem_cons.mp hc with hc0 | hcr
    · subst hc0
      obtain ⟨sub', hget', hphase'⟩ := assessCtrStep_get_self hwf hsub hph
      refine ⟨sub', ?_, hphase'⟩
      unfold assessCtrSubNodes
      rw [List.foldl_cons,
        assessFold_get_ne now nodeName rest _ _ hwf' (fun x hx => hne0 x hx)]
      exact hget'
    · have hsub' : Nodes.get (assessCtrStep now nodeName ns c0)
          (nodeID (nodeName ++ "." ++ c.name)) = some sub := by
        rw [assessCtrStep_get_ne hwf (fun he => hne0 c hcr he.symm)]
        exact hsub
      have hres := ih (assessCtrStep now nodeName ns c0) hwf' hnd' c hcr ph hph
        sub hsub'
      unfold assessCtrSubNodes at hres ⊢
      rw [List.foldl_cons]
      exact hres

/-- Witness for C8: a cleanly terminated main container sets its existing
sub-node `pod-node.main` to Succeeded. -/
theorem assessCtrSubNodes_spec_witness :
    ∃ sub', Nodes.get (assessCtrSubNodes c8Nodes 7 "pod-node" c8Ctrs)
        (nodeID ("pod-node" ++ "." ++ "main")) = some sub' ∧
      sub'.phase = NodePhase.succeeded :=
  assessCtrSubNodes_spec 7 "pod-node" c8Ctrs c8Nodes
    (by unfold Nodes.wellFormed; decide) (by decide)
    ⟨"main", CtrState.terminated 0 "Completed" ""⟩ (by decide)
    NodePhase.succeeded rfl c8MainSub (by decide)

theorem reconcileStep_requeued_mono {now grace : Int}
    {seen : List (String × String)} {acc : ReconcileResult} {key : String}
    (h : acc.requeued = true) :
    (reconcileStep now grace seen acc key).requeued = true := by
  unfold reconcileStep
  split
  · exact h
  · split
    · exact h
    · split
      · split
        · exact h
        · split
          · rfl
          · split
            · exact h
            · exact h
      · split
        · exact h
        · exact h

theorem reconcileStep_wellFormed {now grace : Int}
    {seen : List (String × String)} {acc : ReconcileResult} {key : String}
    (hwf : Nodes.wellFormed acc.nodes) :
    Nodes.wellFormed (reconcileStep now grace seen acc key).nodes := by
  unfold reconcileStep
  split
  · exact hwf
  · next node hget =>
    split
    · exact hwf
    · split
      · split
        · exact hwf
        · split
          · exact hwf
          · split
            · exact hwf
            · next mk hmk =>
              have hg : getNodeByName acc.nodes node.name = some node := by
                unfold getNodeByName
                rw [(Nodes.wellFormed_get hwf hget).2]
                exact hget
              rw [markNodePhase_eq_some acc.nodes now node.name NodePhase.error
                (some "pod deleted") node hg] at hmk
              injection hmk with hmk'
              subst hmk'
              dsimp only
              apply Nodes.wellFormed_set hwf
              obtain ⟨hid, hname⟩ := Nodes.wellFormed_get hwf hget
              have hspec := applyMarkPhase_spec node now NodePhase.error
                (some "pod deleted")
              refine ⟨rfl, ?_⟩
              rw [hspec.2.2.1, hspec.2.1, hid, ← hname]
      · split
        · next host hsn hhost =>
          dsimp only
          apply Nodes.wellFormed_set hwf
          obtain ⟨hid, hname⟩ := Nodes.wellFormed_get hwf hget
          exact ⟨hid, hname⟩
        · exact hwf

theorem reconcileStep_get_ne {now grace : Int}
    {seen : List (String × String)} {acc : ReconcileResult} {key k : String}
    (hwf : Nodes.wellFormed acc.nodes) (hk : k ≠ key) :
    Nodes.get (reconcileStep now grace seen acc key).nodes k =
      Nodes.get acc.nodes k := by
  unfold reconcileStep
  split
  · rfl
  · next node hget =>
    split
    · rfl
    · split
      · split
        · rfl
        · split
          · rfl
          · split
            · rfl
            · next mk hmk =>
              have hg : getNodeByName acc.nodes node.name = some node := by
                unfold getNodeByName
                rw [(Nodes.wellFormed_get hwf hget).2]
                exact hget
              rw [markNodePhase_eq_some acc.nodes now node.name NodePhase.error
                (some "pod deleted") node hg] at hmk
              injection hmk with hmk'
              subst hmk'
              dsimp only
              rw [(applyMarkPhase_spec node now NodePhase.error
                (some "pod deleted")).2.1, (Nodes.wellFormed_get hwf hget).1]
              exact Nodes.get_set_ne acc.nodes key k _ (fun he => hk he.symm)
      · split
        · dsimp only
          exact Nodes.get_set_ne acc.nodes key k _ (fun he => hk he.symm)
        · rfl

theorem reconcileFold_requeued_mono (now grace : Int)
    (seen : List (String × String)) :
    ∀ (keys : List String) (acc : ReconcileResult), acc.requeued = true →
      (keys.foldl (reconcileStep now grace seen) acc).requeued = true := by
  intro keys
  induction keys with
  | nil => exact fun acc h => h
  | cons key rest ih =>
    intro acc h
    rw [List.foldl_cons]
    exact ih _ (reconcileStep_requeued_mono h)

theorem reconcileFold_wellFormed (now grace : Int)
    (seen : List (String × String)) :
    ∀ (keys : List String) (acc : ReconcileResult),
      Nodes.wellFormed acc.nodes →
      Nodes.wellFormed
        ((keys.foldl (reconcileStep now grace seen) acc)).nodes := by
  intro keys
  induction keys with
  | nil => exact fun acc h => h
  | cons key rest ih =>
    intro acc h
    rw [List.foldl_cons]
    exact ih _ (reconcileStep_wellFormed h)

theorem reconcileFold_get_ne (now grace : Int)
    (seen : List (String × String)) :
    ∀ (keys : List String) (acc : ReconcileResult) (k : String),
      Nodes.wellFormed acc.nodes → k ∉ keys →
      Nodes.get ((keys.foldl (reconcileStep now grace seen) acc)).nodes k =
        Nodes.get acc.nodes k := by
  intro keys
  induction keys with
  | nil => exact fun acc k _ _ => rfl
  | cons key rest ih =>
    intro acc k hwf hkm
    rw [List.foldl_cons,
      ih _ k (reconcileStep_wellFormed hwf) (fun hm => hkm (by simp [hm])),
      reconcileStep_get_ne hwf (fun he => hkm (by simp [he]))]

/-- The step of the deleted-pod sweep at the missing node's own key, split
over the three outcomes: sync-lock exemption, the grace window, and the
"pod deleted" error mark. -/
theorem reconcileStep_self {now grace : Int} {seen : List (String × String)}
    {acc : ReconcileResult} {key : String} {node : NodeStatus}
    (hwf : Nodes.wellFormed acc.nodes)
    (hget : Nodes.get acc.nodes key = some node)
    (htyp : node.typ = NodeType.pod) (hnf : node.phase.fulfilled = false)
    (hst : node.startedAt ≠ 0) (hseen : seen.lookup key = none) :
    (node.pending = true ∧ node.getReason = waitingForSyncLock →
      reconcileStep now grace seen acc key = acc) ∧
    (¬(node.pending = true ∧ node.getReason = waitingForSyncLock) →
      recentlyStarted now grace node = true →
      reconcileStep now grace seen acc key = { acc with requeued := true }) ∧
    (¬(node.pending = true ∧ node.getReason = waitingForSyncLock) →
      recentlyStarted now grace node = false →
      (reconcileStep now grace seen acc key).requeued = acc.requeued ∧
      Nodes.get (reconcileStep now grace seen acc key).nodes key =
        some (applyMarkPhase node now NodePhase.error (some "pod deleted"))) := by
  have hg : getNodeByName acc.nodes node.name = some node := by
    unfold getNodeByName
    rw [(Nodes.wellFormed_get hwf hget).2]
    exact hget
  have hskip : ¬(node.typ ≠ NodeType.pod ∨ node.phase.fulfilled = true ∨
      node.startedAt = 0) := by
    simp [htyp, hnf, hst]
  refine ⟨?_, ?_, ?_⟩
  · intro hsync
    unfold reconcileStep
    rw [hget]
    dsimp only
    rw [if_neg hskip, hseen]
    dsimp only
    rw [if_pos hsync]
  · intro hnsync hrec
    unfold reconcileStep
    rw [hget]
    dsimp only
    rw [if_neg hskip, hseen]
    dsimp only
    rw [if_neg hnsync, if_pos hrec]
  · intro hnsync hrec
    unfold reconcileStep
    rw [hget]
    dsimp only
    rw [if_neg hskip, hseen]
    dsimp only
    rw [if_neg hnsync, if_neg (by simp [hrec]),
      markNodePhase_eq_some acc.nodes now node.name NodePhase.error
        (some "pod deleted") node hg]
    dsimp only
    refine ⟨rfl, ?_⟩
    rw [(applyMarkPhase_spec node now NodePhase.error
      (some "pod deleted")).2.1, (Nodes.wellFormed_get hwf hget).1]
    exact Nodes.get_set_self acc.nodes key _

/-- C9: in the deleted-pod sweep, a Pod-typed node that is not terminal, has a
non-zero start time and matches no observed pod is left unchanged when it is
Pending waiting for a synchronization lock; is left unchanged with the
workflow requeued when it started within the grace window
(`RECENTLY_STARTED_POD_DURATION`, default `defaultRecentlyStartedPodDuration`,
ten seconds); and is otherwise marked Error with the message "pod deleted". -/
theorem reconcileDeletedPods_spec (ns : Nodes) (now grace : Int)
    (seen : List (String × String)) (hwf : Nodes.wellFormed ns)
    (hnd : (ns.map Prod.fst).Nodup) :
    ∀ id node, Nodes.get ns id = some node → node.typ = NodeType.pod →
      node.phase.fulfilled = false → node.startedAt ≠ 0 →
      seen.lookup id = none →
      ((node.pending = true ∧ node.getReason = waitingForSyncLock →
        Nodes.get (reconcileDeletedPods ns now grace seen).nodes id =
          some node) ∧
      (¬(node.pending = true ∧ node.getReason = waitingForSyncLock) →
        recentlyStarted now grace node = true →
        Nodes.get (reconcileDeletedPods ns now grace seen).nodes id =
            some node ∧
          (reconcileDeletedPods ns now grace seen).requeued = true) ∧
      (¬(node.pending = true ∧ node.getReason = waitingForSyncLock) →
        recentlyStarted now grace node = false →
        ∃ node', Nodes.get (reconcileDeletedPods ns now grace seen).nodes id =
            some node' ∧
          node'.phase = NodePhase.error ∧ node'.message = "pod deleted")) := by
  intro id node hget htyp hnf hst hseen
  have hidm : id ∈ ns.map Prod.fst :=
    List.mem_map_of_mem Prod.fst (Nodes.get_mem hget)
  obtain ⟨l1, l2, hkeys⟩ := List.append_of_mem hidm
  rw [hkeys] at hnd
  have hnl1 : id ∉ l1 := fun hmem =>
    (List.nodup_append.mp hnd).2.2 hmem (List.mem_cons_self id l2)
  have hnl2 : id ∉ l2 :=
    (List.nodup_cons.mp (List.nodup_append.mp hnd).2.1).1
  have hfold : reconcileDeletedPods ns now grace seen =
      l2.foldl (reconcileStep now grace seen)
        (reconcileStep now grace seen
          (l1.foldl (reconcileStep now grace seen) ⟨ns, false⟩) id) := by
    unfold reconcileDeletedPods
    rw [hkeys, List.foldl_append, List.foldl_cons]
  have hwf1 : Nodes.wellFormed
      (l1.foldl (reconcileStep now grace seen) ⟨ns, false⟩).nodes :=
    reconcileFold_wellFormed now grace seen l1 ⟨ns, false⟩ hwf
  have hget1 : Nodes.get
      (l1.foldl (reconcileStep now grace seen) ⟨ns, false⟩).nodes id =
      some node := by
    rw [reconcileFold_get_ne now grace seen l1 ⟨ns, false⟩ id hwf hnl1]
    exact hget
  obtain ⟨hcase1, hcase2, hcase3⟩ :=
    reconcileStep_self hwf1 hget1 htyp hnf hst hseen
  refine ⟨?_, ?_, ?_⟩
  · intro hsync
    rw [hfold, hcase1 hsync,
      reconcileFold_get_ne now grace seen l2 _ id hwf1 hnl2]
    exact hget1
  · intro hnsync hrec
    constructor
    · rw [hfold, hcase2 hnsync hrec,
        reconcileFold_get_ne now grace seen l2
          ⟨(l1.foldl (reconcileStep now grace seen) ⟨ns, false⟩).nodes, true⟩
          id hwf1 hnl2]
      exact hget1
    · rw [hfold, hcase2 hnsync hrec]
      exact reconcileFold_requeued_mono now grace seen l2 _ rfl
  · intro hnsync hrec
    obtain ⟨hreq, hgetm⟩ := hcase3 hnsync hrec
    refine ⟨applyMarkPhase node now NodePhase.error (some "pod deleted"), ?_,
      (applyMarkPhase_spec node now NodePhase.error (some "pod deleted")).1,
      (applyMarkPhase_spec node now NodePhase.error
        (some "pod deleted")).2.2.2.2.2.2⟩
    rw [hfold, reconcileFold_get_ne now grace seen l2 _ id
      (reconcileStep_wellFormed hwf1) hnl2]
    exact hgetm

/-- Witness for C9: a running pod node started outside the grace window and
matched by no observed pod falls into the three-way case split of the
deleted-pod sweep. -/
theorem reconcileDeletedPods_spec_witness :
    (c9Node.pending = true ∧ c9Node.getReason = waitingForSyncLock →
      Nodes.get (reconcileDeletedPods c9Nodes 20 10 []).nodes "pn" =
        some c9Node) ∧
    (¬(c9Node.pending = true ∧ c9Node.getReason = waitingForSyncLock) →
      recentlyStarted 20 10 c9Node = true →
      Nodes.get (reconcileDeletedPods c9Nodes 20 10 []).nodes "pn" =
          some c9Node ∧
        (reconcileDeletedPods c9Nodes 20 10 []).requeued = true) ∧
    (¬(c9Node.pending = true ∧ c9Node.getReason = waitingForSyncLock) →
      recentlyStarted 20 10 c9Node = false →
      ∃ node', Nodes.get (reconcileDeletedPods c9Nodes 20 10 []).nodes "pn" =
          some node' ∧
        node'.phase = NodePhase.error ∧ node'.message = "pod deleted") :=
  reconcileDeletedPods_spec c9Nodes 20 10 []
    (by unfold Nodes.wellFormed; decide) (by decide) "pn" c9Node
    (by decide) rfl rfl (by decide) rfl

end ArgoOperator
